import Mathlib

/-!
Shallow embedding of the ActivityMapper row-normalization and
activity-to-facilitator resolution pipeline
(`src/utils/parsing.js`, `src/ActivityMapper.jsx`, `src/constants.js`).

Strings are modelled by Lean `String`; the JavaScript string operations
`trim`, `toLowerCase`, `replace(/\s+/g, " ")`, `replace(/\s|_/g, "")` and
`split(";")` are implemented on the underlying character lists.  JavaScript
objects used as dictionaries are modelled as insertion-ordered association
lists with overwrite-in-place semantics (`jsInsert` / `jsLookup`), which
matches plain-object key iteration for the non-numeric keys the program
uses; the prototype chain is not modelled.
-/

namespace ActivityMapper

/-- Whitespace test used to model the JavaScript regex class `\s`. -/
def jsWS (c : Char) : Bool := c.isWhitespace

/-- Model of `String.prototype.trim`: drop leading and trailing whitespace. -/
def trimL (l : List Char) : List Char :=
  ((l.dropWhile jsWS).reverse.dropWhile jsWS).reverse

/-- Model of `s.trim()`. -/
def trimS (s : String) : String := ⟨trimL s.data⟩

/-- Model of `s.toLowerCase()`. -/
def toLowerS (s : String) : String := ⟨s.data.map Char.toLower⟩

/-- Model of `s.replace(/\s+/g, " ")`: collapse each maximal whitespace run
to a single space. -/
def collapseL : List Char → List Char
  | [] => []
  | [c] => if jsWS c then [' '] else [c]
  | c1 :: c2 :: cs =>
    if jsWS c1 && jsWS c2 then collapseL (c2 :: cs)
    else (if jsWS c1 then ' ' else c1) :: collapseL (c2 :: cs)

/-- Model of `s.split(";")` on the character list (JavaScript semantics:
adjacent separators and an empty string yield empty pieces). -/
def splitSemiL : List Char → List (List Char)
  | [] => [[]]
  | c :: cs =>
    if c = ';' then [] :: splitSemiL cs
    else
      match splitSemiL cs with
      | [] => [[c]]
      | p :: ps => (c :: p) :: ps

/-- Model of `facilitatorsRaw.split(";")`. -/
def splitSemi (s : String) : List String := (splitSemiL s.data).map (⟨·⟩)

/-- Key/cell normalization shared by `getField` and the header detector
(`parsing.js`): `String(x).trim().replace(/\s|_/g, "").toLowerCase()`. -/
def normalizeKey (s : String) : String :=
  ⟨((trimL s.data).filter (fun c => !(jsWS c || c == '_'))).map Char.toLower⟩

/-- Name normalization from `ActivityMapper.jsx`:
`name.trim().replace(/\s+/g, " ").toLowerCase()`. -/
def normalizeName (s : String) : String :=
  ⟨(collapseL (trimL s.data)).map Char.toLower⟩

/-- A spreadsheet record after header detection: the ordered list of
(raw column name, cell value) pairs of one row. -/
abbrev Record := List (String × String)

/-- `getField(row, keys)` from `parsing.js`: for each candidate key in
order, scan the record's own keys; return the value of the first record
key whose normalization equals the candidate's; `""` if none matches. -/
def getField (row : Record) (keys : List String) : String :=
  match keys with
  | [] => ""
  | key :: rest =>
    match row.find? (fun p => normalizeKey p.1 == normalizeKey key) with
    | some p => p.2
    | none => getField row rest

def NEIGHBORHOOD_KEYS : List String :=
  ["Focus Neighbourhood", "Focus Neighborhood", "Neighbourhood", "Neighborhood"]
def POSTAL_KEYS : List String :=
  ["Postal Code", "Postal", "Postcode", "Zip", "ZIP Code", "Zip Code"]
def LOCALITY_KEYS : List String := ["Locality", "City", "locality", "city"]
def REGION_KEYS : List String := ["Region", "State", "Province", "region", "state"]
def NATIONAL_COMMUNITY_KEYS : List String :=
  ["National Community", "Country", "national community", "country"]
def FIRST_NAME_KEYS : List String :=
  ["First Name", "FirstName", "Firstname", "first_name", "firstname", "First Name(s)"]
def LAST_NAME_KEYS : List String :=
  ["Last Name", "LastName", "Lastname", "last_name", "lastname", "Family Name"]
def ACTIVITY_TYPE_KEYS : List String := ["Activity Type", "activity type", "Type", "type"]
def ACTIVITY_NAME_KEYS : List String := ["Name", "name"]
def FACILITATORS_KEYS : List String := ["Facilitators", "facilitators"]

/-- Header-match threshold (`constants.js`). -/
def HEADER_MIN_MATCHES : Nat := 2

/-- Cell normalization of the header detector (`normalizeHeaderCell`). -/
def normalizeHeaderCell (cell : String) : String := normalizeKey cell

/-- Canonical individuals-file header names (`INDIVIDUALS_HEADER_CANONICAL`). -/
def INDIVIDUALS_HEADER_CANONICAL : List String :=
  ["firstname", "lastname", "address", "addressline1", "addressline2",
   "focusneighbourhood", "focusneighborhood", "neighbourhood", "neighborhood",
   "locality", "region", "nationalcommunity", "postal", "postalcode", "postcode",
   "zip", "zipcode"]

/-- Canonical activities-file header names (`ACTIVITIES_HEADER_CANONICAL`). -/
def ACTIVITIES_HEADER_CANONICAL : List String :=
  ["activitytype", "type", "name", "facilitators", "facilitator"]

/-- Number of cells of a raw row that count as header matches:
cells whose normalization is non-empty and belongs to the canonical set. -/
def headerMatchCount (canonicalSet : List String) (row : List String) : Nat :=
  row.countP (fun cell =>
    let n := normalizeHeaderCell cell
    !(n == "") && canonicalSet.contains n)

/-- Index-carrying scan of `findHeaderRow`'s loop. -/
def findHeaderRowFrom (canonicalSet : List String) (minMatches : Nat) :
    List (List String) → Nat → Option Nat
  | [], _ => none
  | row :: rest, i =>
    if minMatches ≤ headerMatchCount canonicalSet row then some i
    else findHeaderRowFrom canonicalSet minMatches rest (i + 1)

/-- `findHeaderRow(rawRows, canonicalSet, minMatches)` from `parsing.js`:
index of the first row with at least `minMatches` canonical cells, `0` if
no row qualifies. -/
def findHeaderRow (rawRows : List (List String)) (canonicalSet : List String)
    (minMatches : Nat) : Nat :=
  (findHeaderRowFrom canonicalSet minMatches rawRows 0).getD 0

/-- `findIndividualsHeaderRow` from `parsing.js`. -/
def findIndividualsHeaderRow (rawRows : List (List String)) : Nat :=
  findHeaderRow rawRows INDIVIDUALS_HEADER_CANONICAL HEADER_MIN_MATCHES

/-- `findActivitiesHeaderRow` from `parsing.js`. -/
def findActivitiesHeaderRow (rawRows : List (List String)) : Nat :=
  findHeaderRow rawRows ACTIVITIES_HEADER_CANONICAL HEADER_MIN_MATCHES

/-- Insertion-ordered dictionary write `obj[k] = v` of a plain JavaScript
object (or `Map.set`): overwrite the value in place if the key is present,
else append the new entry at the end. -/
def jsInsert {α : Type} : List (String × α) → String → α → List (String × α)
  | [], k, v => [(k, v)]
  | p :: rest, k, v => if p.1 = k then (k, v) :: rest else p :: jsInsert rest k v

/-- Dictionary read `obj[k]`: value of the first entry with key `k`. -/
def jsLookup {α : Type} (m : List (String × α)) (k : String) : Option α :=
  (m.find? (fun p => p.1 == k)).map Prod.snd

/-- Retry cap for rate-limited geocoding (`ActivityMapper.jsx`). -/
def GEOCODE_MAX_RETRIES : Nat := 3

/-- A resolved coordinate as returned by `geocodeAddress`:
`{ lat, lng, address: addr }`. -/
structure Coord where
  lat : ℝ
  lng : ℝ
  address : String

/-- Environment of one `geocodeAddress` call: `acquire n` tells whether the
`n`-th call to `limiter.removeTokens(1)` succeeds (`false` models a throw),
and `fetch` is the Mapbox forward-geocoding request for an address, already
collapsed to `some (lng, lat)` of the first feature, or `none` when the
HTTP response is not ok or has no feature. -/
structure GeoEnv where
  acquire : Nat → Bool
  fetch : String → Option (ℝ × ℝ)

/-- Observable trace of one `geocodeAddress` call: how many token
acquisitions were attempted, the backoff waits (milliseconds) performed
between them, and the returned value (`none` models `null`). -/
structure GeocodeTrace where
  attempts : Nat
  waits : List Nat
  result : Option Coord

/-- `geocodeAddress(addr, retryCount)` from `ActivityMapper.jsx`: try to
take a limiter token (attempt number `attemptIdx`); on failure, return
`null` once `retryCount` has reached `GEOCODE_MAX_RETRIES`, else wait
1000 ms and recurse; on success perform the fetch and unpack the first
feature's `[lng, lat]`. -/
def geocodeAddress (env : GeoEnv) (addr : String) (retryCount attemptIdx : Nat) :
    GeocodeTrace :=
  if env.acquire attemptIdx then
    match env.fetch addr with
    | some c => ⟨1, [], some ⟨c.2, c.1, addr⟩⟩
    | none => ⟨1, [], none⟩
  else if GEOCODE_MAX_RETRIES ≤ retryCount then ⟨1, [], none⟩
  else
    let rest := geocodeAddress env addr (retryCount + 1) (attemptIdx + 1)
    ⟨rest.attempts + 1, 1000 :: rest.waits, rest.result⟩
termination_by GEOCODE_MAX_RETRIES - retryCount
decreasing_by omega

/-- `getStreetPart` from `geocodeRows`: the `Address` column, or else the
non-blank address lines joined by `", "`. -/
def getStreetPart (r : Record) : String :=
  let addr := getField r ["Address"]
  if addr == "" then
    let line1 := getField r ["Address Line 1", "Address line 1"]
    let line2 := getField r ["Address Line 2", "Address line 2"]
    String.intercalate ", " (([line1, line2]).filter (fun s => !(s == "")))
  else addr

def getNeighborhood (r : Record) : String := trimS (getField r NEIGHBORHOOD_KEYS)
def getPostal (r : Record) : String := trimS (getField r POSTAL_KEYS)
def getLocality (r : Record) : String := trimS (getField r LOCALITY_KEYS)
def getRegion (r : Record) : String := trimS (getField r REGION_KEYS)
def getNationalCommunity (r : Record) : String :=
  trimS (getField r NATIONAL_COMMUNITY_KEYS)

/-- Component list shared by the address key and the geocode query. -/
def addressParts (r : Record) : List String :=
  [getStreetPart r, getNeighborhood r, getPostal r, getLocality r,
   getRegion r, getNationalCommunity r]

/-- `addressKey(r)` from `geocodeRows`: the six address components joined
by `"|"`. -/
def addressKey (r : Record) : String := String.intercalate "|" (addressParts r)

/-- The human-readable geocode query: the non-blank address components
joined by `", "`. -/
def geocodeQuery (r : Record) : String :=
  String.intercalate ", " ((addressParts r).filter (fun s => !(s == "")))

/-- `new Map(rows.map(r => [addressKey(r), r]))`: insertion-ordered keys by
first occurrence, value overwritten by the last row sharing the key. -/
def buildAddressMap (rows : List Record) : List (String × Record) :=
  rows.foldl (fun m r => jsInsert m (addressKey r) r) []

/-- `uniqueRows` from `geocodeRows`: one representative row per distinct
address key; each of these triggers exactly one external geocode call. -/
def uniqueRows (rows : List Record) : List Record :=
  (buildAddressMap rows).map Prod.snd

/-- One iteration of the geocoding loop of `geocodeRows`: on success store
the result under the row's address key, on failure count one failed
address. -/
def geocodeStep (g : String → Option Coord)
    (acc : List (String × Coord) × Nat) (row : Record) :
    List (String × Coord) × Nat :=
  match g (geocodeQuery row) with
  | some result => (jsInsert acc.1 (addressKey row) result, acc.2)
  | none => (acc.1, acc.2 + 1)

/-- The sequential geocoding loop of `geocodeRows` over the unique rows,
with the external collaborator abstracted as `g : query ↦ Option Coord`:
builds `geocodedMap` and counts the failed unique addresses. -/
def geocodePass (g : String → Option Coord) (uniq : List Record) :
    List (String × Coord) × Nat :=
  uniq.foldl (geocodeStep g) ([], 0)

/-- `geocodedMap` of `geocodeRows`. -/
def geocodedMap (g : String → Option Coord) (rows : List Record) :
    List (String × Coord) :=
  (geocodePass g (uniqueRows rows)).1

/-- `failedCount` of `geocodeRows`: number of unique addresses whose
geocode attempt returned no coordinate. -/
def failedCount (g : String → Option Coord) (rows : List Record) : Nat :=
  (geocodePass g (uniqueRows rows)).2

/-- A resolved individual (home marker): the original record spread
together with the assigned coordinate, address and name fields.  The
React list key `id` (a string derived from coordinates, name and row
index) is not modelled; no claim refers to it. -/
structure Individual where
  row : Record
  lat : ℝ
  lng : ℝ
  address : String
  firstName : String
  lastName : String

/-- `allIndividuals` of `geocodeRows`: every row whose address key
resolved, carrying the resolved coordinate; rows with a failed or missing
key are dropped. -/
def allIndividuals (g : String → Option Coord) (rows : List Record) :
    List Individual :=
  rows.filterMap (fun r =>
    (jsLookup (geocodedMap g rows) (addressKey r)).map (fun geo =>
      ⟨r, geo.lat, geo.lng, geo.address,
       getField r FIRST_NAME_KEYS, getField r LAST_NAME_KEYS⟩))

/-- Per-row neighborhood extraction of `processResults`: the trimmed
neighborhood value, or the sentinel `"Other"` when blank.  Field lookup on
an individual scans the spread object's keys; the keys added by the spread
(`id`, `lat`, `lng`, `address`, `firstName`, `lastName`) never normalize
into `NEIGHBORHOOD_KEYS`, so the lookup is that of the underlying record. -/
def allNeighborhoodsRaw (results : List Individual) : List String :=
  results.map (fun r =>
    let trimmed := trimS (getField r.row NEIGHBORHOOD_KEYS)
    if trimmed == "" then "Other" else trimmed)

/-- `Array.from(new Set(l))`: first occurrences, in order. -/
def dedupFirst (l : List String) : List String :=
  l.foldl (fun acc x => if acc.contains x then acc else acc ++ [x]) []

/-- Lexicographic code-point comparison on character lists, used to model
the comparator `(a, b) => a.localeCompare(b)` (default-locale collation is
modelled as code-point order). -/
def charListLe : List Char → List Char → Bool
  | [], _ => true
  | _ :: _, [] => false
  | c :: cs, d :: ds =>
    if c.toNat < d.toNat then true
    else if d.toNat < c.toNat then false
    else charListLe cs ds

/-- String order induced by the modelled `localeCompare`. -/
def localeLe (a b : String) : Prop := charListLe a.data b.data = true

instance : DecidableRel localeLe := fun a b =>
  instDecidableEqBool (charListLe a.data b.data) true

lemma charListLe_total : ∀ a b : List Char, charListLe a b = true ∨ charListLe b a = true := by
  intro a
  induction a with
  | nil => intro b; left; rfl
  | cons c cs ih =>
    intro b
    cases b with
    | nil => right; rfl
    | cons d ds =>
      unfold charListLe
      rcases Nat.lt_trichotomy c.toNat d.toNat with h | h | h
      · left; rw [if_pos h]
      · have h1 : ¬ c.toNat < d.toNat := by omega
        have h2 : ¬ d.toNat < c.toNat := by omega
        rw [if_neg h1, if_neg h2, if_neg h2, if_neg h1]
        exact ih ds
      · right; rw [if_pos h]

lemma charListLe_trans :
    ∀ a b c : List Char, charListLe a b = true → charListLe b c = true →
      charListLe a c = true := by
  intro a
  induction a with
  | nil => intro b c _ _; rfl
  | cons x xs ih =>
    intro b c hab hbc
    cases b with
    | nil => simp [charListLe] at hab
    | cons y ys =>
      cases c with
      | nil => simp [charListLe] at hbc
      | cons z zs =>
        unfold charListLe at hab hbc ⊢
        rcases Nat.lt_trichotomy x.toNat y.toNat with h1 | h1 | h1
        · rcases Nat.lt_trichotomy y.toNat z.toNat with h2 | h2 | h2
          · rw [if_pos (by omega)]
          · rw [if_pos (by omega)]
          · rw [if_pos h2, if_neg (by omega)] at hbc
            exact absurd hbc (by simp)
        · rcases Nat.lt_trichotomy y.toNat z.toNat with h2 | h2 | h2
          · rw [if_pos (by omega)]
          · rw [if_neg (by omega), if_neg (by omega)]
            rw [if_neg (by omega), if_neg (by omega)] at hab
            rw [if_neg (by omega), if_neg (by omega)] at hbc
            exact ih ys zs hab hbc
          · rw [if_pos h2, if_neg (by omega)] at hbc
            exact absurd hbc (by simp)
        · rw [if_pos h1, if_neg (by omega)] at hab
          exact absurd hab (by simp)

instance : IsTotal String localeLe :=
  ⟨fun a b => charListLe_total a.data b.data⟩

instance : IsTrans String localeLe :=
  ⟨fun a b c => charListLe_trans a.data b.data c.data⟩

/-- `uniqueNeighborhoods` as computed by `processResults`: distinct
non-`"Other"` spellings sorted by the comparator, with `"Other"` appended
last when any row mapped to it. -/
def uniqueNeighborhoods (results : List Individual) : List String :=
  let raw := allNeighborhoodsRaw results
  let uniq := dedupFirst raw
  let sorted := List.insertionSort localeLe (uniq.filter (fun n => !(n == "Other")))
  if raw.contains "Other" then sorted ++ ["Other"] else sorted

/-- `ACTIVITY_MARKER_RADIUS_DEG` from `constants.js`. -/
noncomputable def ACTIVITY_MARKER_RADIUS_DEG : ℝ := 0.0005

/-- `ACTIVITY_TYPE_MAP` from `ActivityMapper.jsx`: fixed vocabulary from
lowercased activity-type text to the four codes. -/
def ACTIVITY_TYPE_MAP (s : String) : Option String :=
  if s == "children\x27s class" then some "CC"
  else if s == "junior youth group" then some "JY"
  else if s == "study circle" then some "SC"
  else if s == "devotional" then some "DM"
  else none

/-- Normalized full name of a resolved individual:
`normalizeName(firstName + " " + lastName)`. -/
def fullNameOf (h : Individual) : String :=
  normalizeName (h.firstName ++ " " ++ h.lastName)

/-- `homeLookup` built at the start of `processActivities`: normalized full
name to individual, skipping individuals whose normalized full name is
empty; a later individual with the same name overwrites an earlier one. -/
def homeLookup (homes : List Individual) : List (String × Individual) :=
  homes.foldl
    (fun m h =>
      let fullName := fullNameOf h
      if fullName == "" then m else jsInsert m fullName h)
    []

/-- One `(facilitator, activity)` pairing pushed into
`facilitatorActivities[normName]`. -/
structure Assignment where
  activity : String
  activityTypeRaw : String
  facilitator : String
  address : String
  activityName : String
  facilitators : String
deriving DecidableEq

/-- Mutable state of the row loop of `processActivities`.  The
`typeCounts` counter incremented per unique `(name, type)` pair is kept
although the component ultimately publishes `mappedTypeCounts` instead. -/
structure ActState where
  noFacilitators : List Record
  facilitatorNotFound : List Record
  typeCounts : List (String × Nat)
  uniqueActivityRows : List String
  facilitatorActivities : List (String × List Assignment)

/-- `facilitatorActivities[normName].push(a)`, creating the bucket if
absent. -/
def addAssignment (fa : List (String × List Assignment)) (k : String)
    (a : Assignment) : List (String × List Assignment) :=
  match jsLookup fa k with
  | some acts => jsInsert fa k (acts ++ [a])
  | none => fa ++ [(k, [a])]

/-- `typeCounts[t] = (typeCounts[t] || 0) + 1`. -/
def bumpCount (tc : List (String × Nat)) (t : String) : List (String × Nat) :=
  jsInsert tc t ((jsLookup tc t).getD 0 + 1)

/-- One step of the facilitator-name scan of an activity row: normalize
the name, look it up among the homes, and on a hit push one assignment and
record that at least one name matched. -/
def facStep (homes : List Individual)
    (activityType activityTypeRaw activityName facilitatorsRaw : String)
    (acc : List (String × List Assignment) × Bool) (name : String) :
    List (String × List Assignment) × Bool :=
  let normName := normalizeName name
  match jsLookup (homeLookup homes) normName with
  | some h =>
    (addAssignment acc.1 normName
      ⟨activityType, activityTypeRaw, trimS name, h.address,
       activityName, facilitatorsRaw⟩, true)
  | none => acc

/-- The body of `data.forEach(row => ...)` in `processActivities`:
skip unrecognized activity types; classify rows with a blank facilitators
field; register the unique `(name, type)` key; match each
semicolon-separated facilitator name against `homeLookup`, pushing one
assignment per match; classify the row as facilitator-not-found when no
name matched. -/
def processRow (homes : List Individual) (st : ActState) (row : Record) :
    ActState :=
  let activityTypeRaw := getField row ACTIVITY_TYPE_KEYS
  match ACTIVITY_TYPE_MAP (toLowerS (trimS activityTypeRaw)) with
  | none => st
  | some activityType =>
    let facilitatorsRaw := getField row FACILITATORS_KEYS
    if trimS facilitatorsRaw == "" then
      ⟨st.noFacilitators ++ [row], st.facilitatorNotFound, st.typeCounts,
       st.uniqueActivityRows, st.facilitatorActivities⟩
    else
      let activityName := getField row ACTIVITY_NAME_KEYS
      let uniqueKey := activityName ++ "|" ++ activityType
      let st1 : ActState :=
        if st.uniqueActivityRows.contains uniqueKey then st
        else
          ⟨st.noFacilitators, st.facilitatorNotFound,
           bumpCount st.typeCounts activityType,
           st.uniqueActivityRows ++ [uniqueKey], st.facilitatorActivities⟩
      let step := (splitSemi facilitatorsRaw).foldl
        (facStep homes activityType activityTypeRaw activityName facilitatorsRaw)
        (st1.facilitatorActivities, false)
      if step.2 then
        ⟨st1.noFacilitators, st1.facilitatorNotFound, st1.typeCounts,
         st1.uniqueActivityRows, step.1⟩
      else
        ⟨st1.noFacilitators, st1.facilitatorNotFound ++ [row], st1.typeCounts,
         st1.uniqueActivityRows, step.1⟩

/-- State of `processActivities` after the row loop, starting from the
empty classification lists and the zeroed per-type counter. -/
def activityState (homes : List Individual) (rows : List Record) : ActState :=
  rows.foldl (processRow homes)
    ⟨[], [], [("CC", 0), ("DM", 0), ("JY", 0), ("SC", 0)], [], []⟩

/-- A generated activity marker. -/
structure ActivityMarker where
  id : String
  lat : ℝ
  lng : ℝ
  activity : String
  activityTypeRaw : String
  facilitator : String
  address : String
  activityName : String
  facilitators : String

/-- Ring offset of assignment `i` of `n`:
`(sin(2·π·i/n)·R, cos(2·π·i/n)·R)` with `R = ACTIVITY_MARKER_RADIUS_DEG`,
exactly the `latOffset`/`lngOffset` computed in the marker loop. -/
noncomputable def markerOffset (i n : Nat) : ℝ × ℝ :=
  (Real.sin (2 * Real.pi * i / n) * ACTIVITY_MARKER_RADIUS_DEG,
   Real.cos (2 * Real.pi * i / n) * ACTIVITY_MARKER_RADIUS_DEG)

/-- The marker pushed for assignment `act` at ring position `i` of `n`
around `base`. -/
noncomputable def mkMarker (normName : String) (base : Individual) (n i : Nat)
    (act : Assignment) : ActivityMarker :=
  ⟨"act-" ++ normName ++ "-" ++ act.facilitator ++ "-" ++ act.activityName
     ++ "-" ++ toString i,
   base.lat + (markerOffset i n).1, base.lng + (markerOffset i n).2,
   act.activity, act.activityTypeRaw, act.facilitator, act.address,
   act.activityName, act.facilitators⟩

/-- Uniqueness key `act.activityName + "|" + act.activity + "|" +
act.facilitators` used for `uniqueMappedActivities`. -/
def mappedKey (a : Assignment) : String :=
  a.activityName ++ "|" ++ a.activity ++ "|" ++ a.facilitators

/-- The same key read off a generated marker. -/
def markerKey (m : ActivityMarker) : String :=
  m.activityName ++ "|" ++ m.activity ++ "|" ++ m.facilitators

/-- `uniqueMappedActivities[a.activity].add(mappedKey a)`, creating the
set when absent; sets are modelled as first-occurrence lists. -/
def addToSet (um : List (String × List String)) (a : Assignment) :
    List (String × List String) :=
  match jsLookup um a.activity with
  | some s =>
    jsInsert um a.activity (if s.contains (mappedKey a) then s else s ++ [mappedKey a])
  | none => um ++ [(a.activity, [mappedKey a])]

/-- The marker-generation loop over `Object.entries(facilitatorActivities)`:
pushes one marker per assignment, offset on the ring around the
facilitator's home, and collects the unique `(name, type, facilitators)`
keys per type.  A bucket key missing from `homeLookup` contributes
nothing; this branch is unreachable because buckets are only created on a
successful lookup (`activityState_fa_key_sound`). -/
noncomputable def markerStep (homes : List Individual)
    (acc : List ActivityMarker × List (String × List String))
    (entry : String × List Assignment) :
    List ActivityMarker × List (String × List String) :=
  match jsLookup (homeLookup homes) entry.1 with
  | some base =>
    (acc.1 ++ entry.2.enum.map (fun p => mkMarker entry.1 base entry.2.length p.1 p.2),
     entry.2.foldl addToSet acc.2)
  | none => acc

noncomputable def markerPass (homes : List Individual)
    (fa : List (String × List Assignment)) :
    List ActivityMarker × List (String × List String) :=
  fa.foldl (markerStep homes) ([], [])

/-- The activity markers published by `processActivities`. -/
noncomputable def activityMarkers (homes : List Individual)
    (rows : List Record) : List ActivityMarker :=
  (markerPass homes (activityState homes rows).facilitatorActivities).1

/-- `mappedTypeCounts[t]` published as `activityTypeCounts`: the size of
the unique-key set collected for type `t` (0 when no activity of that
type was mapped). -/
noncomputable def activityTypeCounts (homes : List Individual)
    (rows : List Record) (t : String) : Nat :=
  match jsLookup (markerPass homes (activityState homes rows).facilitatorActivities).2 t with
  | some s => s.length
  | none => 0

/-- The `noFacilitators` list published by `processActivities`. -/
def noFacilitatorsOut (homes : List Individual) (rows : List Record) :
    List Record :=
  (activityState homes rows).noFacilitators

/-- The `facilitatorNotFound` list published by `processActivities`. -/
def facilitatorNotFoundOut (homes : List Individual) (rows : List Record) :
    List Record :=
  (activityState homes rows).facilitatorNotFound

/-! Dictionary lemmas. -/

lemma jsLookup_nil {α : Type} (k : String) : jsLookup ([] : List (String × α)) k = none := rfl

lemma jsLookup_cons {α : Type} (p : String × α) (m : List (String × α)) (k : String) :
    jsLookup (p :: m) k = if p.1 = k then some p.2 else jsLookup m k := by
  by_cases h : p.1 = k <;> simp [jsLookup, List.find?_cons, h]

lemma jsLookup_eq_none {α : Type} (m : List (String × α)) (k : String)
    (h : k ∉ m.map Prod.fst) : jsLookup m k = none := by
  induction m with
  | nil => rfl
  | cons p rest ih =>
    simp only [List.map_cons, List.mem_cons, not_or] at h
    have hp : ¬ p.1 = k := fun he => h.1 he.symm
    simp [jsLookup_cons, hp, ih h.2]

lemma jsLookup_jsInsert {α : Type} (m : List (String × α)) (k k' : String) (v : α) :
    jsLookup (jsInsert m k v) k' = if k' = k then some v else jsLookup m k' := by
  induction m with
  | nil =>
    by_cases hk : k' = k
    · subst hk; simp [jsInsert, jsLookup_cons]
    · have hk2 : ¬ k = k' := fun h => hk h.symm
      simp [jsInsert, jsLookup_cons, hk2, hk, jsLookup_nil]
  | cons p rest ih =>
    unfold jsInsert
    by_cases hp : p.1 = k
    · rw [if_pos hp, jsLookup_cons, jsLookup_cons]
      by_cases hk : k' = k
      · subst hk; simp
      · have hk2 : ¬ k = k' := fun h => hk h.symm
        rw [if_neg hk2, if_neg hk, if_neg (hp ▸ hk2)]
    · rw [if_neg hp, jsLookup_cons, jsLookup_cons]
      by_cases hpk : p.1 = k'
      · have hk : ¬ k' = k := fun h => hp (hpk.trans h)
        rw [if_pos hpk, if_neg hk, if_pos hpk]
      · rw [if_neg hpk, if_neg hpk, ih]

lemma jsInsert_keys_of_mem {α : Type} (m : List (String × α)) (k : String) (v : α)
    (h : k ∈ m.map Prod.fst) :
    (jsInsert m k v).map Prod.fst = m.map Prod.fst := by
  induction m with
  | nil => simp at h
  | cons p rest ih =>
    unfold jsInsert
    by_cases hp : p.1 = k
    · rw [if_pos hp]; simp [hp]
    · rw [if_neg hp]
      simp only [List.map_cons, List.mem_cons] at h ⊢
      rcases h with h | h
      · exact absurd h.symm hp
      · rw [ih h]

lemma jsInsert_keys_of_not_mem {α : Type} (m : List (String × α)) (k : String) (v : α)
    (h : k ∉ m.map Prod.fst) :
    (jsInsert m k v).map Prod.fst = m.map Prod.fst ++ [k] := by
  induction m with
  | nil => rfl
  | cons p rest ih =>
    simp only [List.map_cons, List.mem_cons, not_or] at h
    have hp : ¬ p.1 = k := fun he => h.1 he.symm
    unfold jsInsert
    rw [if_neg hp]
    simp only [List.map_cons, List.cons_append, List.cons.injEq, true_and]
    exact ih h.2

lemma jsInsert_pred {α : Type} (P : String × α → Prop) (m : List (String × α))
    (k : String) (v : α) (hm : ∀ p ∈ m, P p) (hv : P (k, v)) :
    ∀ p ∈ jsInsert m k v, P p := by
  induction m with
  | nil => simpa [jsInsert] using hv
  | cons q rest ih =>
    intro p hp
    unfold jsInsert at hp
    by_cases hq : q.1 = k
    · rw [if_pos hq] at hp
      rcases List.mem_cons.1 hp with h | h
      · exact h ▸ hv
      · exact hm p (List.mem_cons_of_mem q h)
    · rw [if_neg hq] at hp
      rcases List.mem_cons.1 hp with h | h
      · exact h ▸ hm q (List.mem_cons_self q rest)
      · exact ih (fun r hr => hm r (List.mem_cons_of_mem q hr)) p h

/-! Header detection (claim C6). -/

/-- Because the canonical sets contain no empty string, the code's match
count (which also tests that the normalized cell is truthy) agrees with
plain membership counting. -/
lemma headerMatchCount_eq_countP (canonicalSet : List String) (row : List String)
    (hset : "" ∉ canonicalSet) :
    headerMatchCount canonicalSet row =
      row.countP (fun cell => canonicalSet.contains (normalizeHeaderCell cell)) := by
  unfold headerMatchCount
  induction row with
  | nil => rfl
  | cons c cs ih =>
    rw [List.countP_cons, List.countP_cons, ih]
    by_cases hc : canonicalSet.contains (normalizeHeaderCell c)
    · have hmem : normalizeHeaderCell c ∈ canonicalSet := by simpa using hc
      have hne : ¬ normalizeHeaderCell c = "" := fun he => hset (he ▸ hmem)
      simp [hc, hne, hmem]
    · have hmem : normalizeHeaderCell c ∉ canonicalSet := by simpa using hc
      simp [hc, hmem]

lemma findHeaderRowFrom_eq_none (canonicalSet : List String) (minMatches : Nat)
    (rows : List (List String)) (i : Nat)
    (h : ∀ r ∈ rows, headerMatchCount canonicalSet r < minMatches) :
    findHeaderRowFrom canonicalSet minMatches rows i = none := by
  induction rows generalizing i with
  | nil => rfl
  | cons r rs ih =>
    have hr := h r (List.mem_cons_self r rs)
    unfold findHeaderRowFrom
    rw [if_neg (by omega)]
    exact ih (i + 1) (fun x hx => h x (List.mem_cons_of_mem r hx))

lemma findHeaderRowFrom_append (canonicalSet : List String) (minMatches : Nat)
    (pre rest : List (List String)) (row : List String) (i : Nat)
    (hpre : ∀ r ∈ pre, headerMatchCount canonicalSet r < minMatches)
    (hrow : minMatches ≤ headerMatchCount canonicalSet row) :
    findHeaderRowFrom canonicalSet minMatches (pre ++ row :: rest) i =
      some (i + pre.length) := by
  induction pre generalizing i with
  | nil =>
    rw [List.nil_append]
    unfold findHeaderRowFrom
    rw [if_pos hrow]
    simp
  | cons r rs ih =>
    have hr := hpre r (List.mem_cons_self r rs)
    rw [List.cons_append]
    unfold findHeaderRowFrom
    rw [if_neg (by omega), ih (i + 1) (fun x hx => hpre x (List.mem_cons_of_mem r hx))]
    congr 1
    simp
    omega

/-- C6: for every list of raw rows in which row `k` is the first row with
at least `minMatches` cells normalizing into the canonical header set,
`findHeaderRow` returns `k` (stated as: the row at position `pre.length`
after a prefix of non-qualifying rows); and when no row meets the
threshold, it returns `0`. -/
theorem c6_findHeaderRow_first_qualifying_row (canonicalSet : List String)
    (minMatches : Nat) (hset : "" ∉ canonicalSet) :
    (∀ (pre rest : List (List String)) (row : List String),
      (∀ r ∈ pre,
        r.countP (fun cell => canonicalSet.contains (normalizeHeaderCell cell)) < minMatches) →
      minMatches ≤ row.countP (fun cell => canonicalSet.contains (normalizeHeaderCell cell)) →
      findHeaderRow (pre ++ row :: rest) canonicalSet minMatches = pre.length)
    ∧ (∀ rawRows : List (List String),
      (∀ r ∈ rawRows,
        r.countP (fun cell => canonicalSet.contains (normalizeHeaderCell cell)) < minMatches) →
      findHeaderRow rawRows canonicalSet minMatches = 0) := by
  constructor
  · intro pre rest row hpre hrow
    unfold findHeaderRow
    rw [findHeaderRowFrom_append canonicalSet minMatches pre rest row 0
      (fun r hr => (headerMatchCount_eq_countP canonicalSet r hset) ▸ hpre r hr)
      ((headerMatchCount_eq_countP canonicalSet row hset) ▸ hrow)]
    simp
  · intro rawRows h
    unfold findHeaderRow
    rw [findHeaderRowFrom_eq_none canonicalSet minMatches rawRows 0
      (fun r hr => (headerMatchCount_eq_countP canonicalSet r hset) ▸ h r hr)]
    rfl

/-- Witness for C6: a file with two junk rows before the real header row
is detected at index 2, and a file with no qualifying row falls back to 0. -/
theorem c6_witness :
    findHeaderRow [["junk"], [], ["First Name", "Last Name", "Address"]]
      INDIVIDUALS_HEADER_CANONICAL HEADER_MIN_MATCHES = 2
    ∧ findHeaderRow [["junk"], ["x", "y"]]
      INDIVIDUALS_HEADER_CANONICAL HEADER_MIN_MATCHES = 0 := by
  constructor
  · exact (c6_findHeaderRow_first_qualifying_row INDIVIDUALS_HEADER_CANONICAL
      HEADER_MIN_MATCHES (by decide)).1 [["junk"], []] []
      ["First Name", "Last Name", "Address"] (by decide) (by decide)
  · exact (c6_findHeaderRow_first_qualifying_row INDIVIDUALS_HEADER_CANONICAL
      HEADER_MIN_MATCHES (by decide)).2 [["junk"], ["x", "y"]] (by decide)

/-! Field resolution (claim C9). -/

/-- C9: `getField` returns the same value for record keys that differ only
by case, whitespace or underscores (equal normalizations); it returns the
value of the first record key, in candidate priority order, that
normalizes equal to a candidate; and `""` when no candidate matches any
record key. -/
theorem c9_getField_key_insensitive :
    (∀ (keys : List String) (k1 k2 v : String),
      normalizeKey k1 = normalizeKey k2 →
      getField [(k1, v)] keys = getField [(k2, v)] keys)
    ∧ (∀ (r1 r2 : Record) (ks1 ks2 : List String) (key : String) (p : String × String),
      (∀ c ∈ ks1, ∀ q ∈ r1 ++ p :: r2, normalizeKey q.1 ≠ normalizeKey c) →
      (∀ q ∈ r1, normalizeKey q.1 ≠ normalizeKey key) →
      normalizeKey p.1 = normalizeKey key →
      getField (r1 ++ p :: r2) (ks1 ++ key :: ks2) = p.2)
    ∧ (∀ (row : Record) (keys : List String),
      (∀ c ∈ keys, ∀ q ∈ row, normalizeKey q.1 ≠ normalizeKey c) →
      getField row keys = "") := by
  refine ⟨?_, ?_, ?_⟩
  · intro keys k1 k2 v h
    induction keys with
    | nil => rfl
    | cons key rest ih =>
      by_cases hm : normalizeKey k1 = normalizeKey key
      · have hm2 : normalizeKey k2 = normalizeKey key := h ▸ hm
        simp [getField, List.find?_cons, hm, hm2]
      · have hm2 : ¬ normalizeKey k2 = normalizeKey key := fun he => hm (h.trans he)
        simp [getField, List.find?_cons, hm, hm2, ih]
  · intro r1 r2 ks1 ks2 key p hks1 hr1 hp
    induction ks1 with
    | nil =>
      rw [List.nil_append]
      unfold getField
      have hfind : (r1 ++ p :: r2).find?
          (fun q => normalizeKey q.1 == normalizeKey key) = some p := by
        rw [List.find?_append]
        have h1 : r1.find? (fun q => normalizeKey q.1 == normalizeKey key) = none :=
          List.find?_eq_none.2 (fun q hq => by simpa using hr1 q hq)
        rw [h1, List.find?_cons_of_pos _ (by simpa using hp)]
        rfl
      rw [hfind]
    | cons c cs ih =>
      rw [List.cons_append]
      unfold getField
      have hnone : (r1 ++ p :: r2).find?
          (fun q => normalizeKey q.1 == normalizeKey c) = none :=
        List.find?_eq_none.2 (fun q hq => by
          simpa using hks1 c (List.mem_cons_self c cs) q hq)
      rw [hnone]
      exact ih (fun d hd => hks1 d (List.mem_cons_of_mem c hd))
  · intro row keys h
    induction keys with
    | nil => rfl
    | cons key rest ih =>
      unfold getField
      have hnone : row.find? (fun q => normalizeKey q.1 == normalizeKey key) = none :=
        List.find?_eq_none.2 (fun q hq => by
          simpa using h key (List.mem_cons_self key rest) q hq)
      rw [hnone]
      exact ih (fun d hd => h d (List.mem_cons_of_mem key hd))

/-- Witness for C9: `First_Name` and `first name` resolve identically; the
first matching record key in priority order wins; no match gives `""`. -/
theorem c9_witness :
    getField [("First_Name", "Jane")] FIRST_NAME_KEYS
      = getField [("first name", "Jane")] FIRST_NAME_KEYS
    ∧ getField [("x", "0"), ("Last_Name", "Doe"), ("LastName", "D2")] LAST_NAME_KEYS = "Doe"
    ∧ getField [("foo", "bar")] FIRST_NAME_KEYS = "" := by
  refine ⟨?_, ?_, ?_⟩
  · exact c9_getField_key_insensitive.1 FIRST_NAME_KEYS "First_Name" "first name"
      "Jane" (by decide)
  · exact c9_getField_key_insensitive.2.1 [("x", "0")] [("LastName", "D2")] []
      ["LastName", "Lastname", "last_name", "lastname", "Family Name"]
      "Last Name" ("Last_Name", "Doe") (by decide) (by decide) (by decide)
  · exact c9_getField_key_insensitive.2.2 [("foo", "bar")] FIRST_NAME_KEYS (by decide)

/-! Bounded geocode retry (claim C2). -/

/-- C2: when the rate limiter denies every acquisition, `geocodeAddress`
makes exactly `GEOCODE_MAX_RETRIES + 1` acquisition attempts with a fixed
1000 ms backoff between consecutive attempts, and returns the failure
indicator `none` (modelling `null`) instead of throwing or recursing
further. -/
theorem c2_geocodeAddress_bounded_retry (env : GeoEnv) (addr : String)
    (h : ∀ n, env.acquire n = false) :
    (geocodeAddress env addr 0 0).attempts = GEOCODE_MAX_RETRIES + 1
    ∧ (geocodeAddress env addr 0 0).waits = List.replicate GEOCODE_MAX_RETRIES 1000
    ∧ (geocodeAddress env addr 0 0).result = none := by
  have e3 : ∀ a, geocodeAddress env addr 3 a = ⟨1, [], none⟩ := by
    intro a
    unfold geocodeAddress
    rw [h a]
    simp [GEOCODE_MAX_RETRIES]
  have e2 : ∀ a, geocodeAddress env addr 2 a = ⟨2, [1000], none⟩ := by
    intro a
    unfold geocodeAddress
    rw [h a]
    simp [GEOCODE_MAX_RETRIES, e3]
  have e1 : ∀ a, geocodeAddress env addr 1 a = ⟨3, [1000, 1000], none⟩ := by
    intro a
    unfold geocodeAddress
    rw [h a]
    simp [GEOCODE_MAX_RETRIES, e2]
  have e0 : geocodeAddress env addr 0 0 = ⟨4, [1000, 1000, 1000], none⟩ := by
    unfold geocodeAddress
    rw [h 0]
    simp [GEOCODE_MAX_RETRIES, e1]
  rw [e0]
  refine ⟨rfl, ?_, rfl⟩
  simp [GEOCODE_MAX_RETRIES, List.replicate]

/-- Witness for C2: an always-denying limiter environment. -/
theorem c2_witness :
    (geocodeAddress ⟨fun _ => false, fun _ => none⟩ "10 Main St" 0 0).attempts
      = GEOCODE_MAX_RETRIES + 1
    ∧ (geocodeAddress ⟨fun _ => false, fun _ => none⟩ "10 Main St" 0 0).waits
      = List.replicate GEOCODE_MAX_RETRIES 1000
    ∧ (geocodeAddress ⟨fun _ => false, fun _ => none⟩ "10 Main St" 0 0).result = none :=
  c2_geocodeAddress_bounded_retry ⟨fun _ => false, fun _ => none⟩ "10 Main St"
    (fun _ => rfl)

/-! Address deduplication and coordinate propagation (claims C1, C7). -/

lemma jsInsert_keys_mem {α : Type} (m : List (String × α)) (k : String) (v : α)
    (k' : String) :
    k' ∈ (jsInsert m k v).map Prod.fst ↔ k' ∈ m.map Prod.fst ∨ k' = k := by
  by_cases h : k ∈ m.map Prod.fst
  · rw [jsInsert_keys_of_mem m k v h]
    constructor
    · exact Or.inl
    · rintro (h' | h')
      · exact h'
      · exact h' ▸ h
  · rw [jsInsert_keys_of_not_mem m k v h]
    simp

/-- Invariants of the address deduplication map: values are stored under
their own address key, keys are distinct, and the key set is exactly the
set of address keys occurring among the processed rows. -/
lemma buildAddressMap_inv (rows : List Record) :
    ∀ m : List (String × Record),
    (∀ p ∈ m, addressKey p.2 = p.1) →
    ((m.map Prod.fst).Nodup) →
    (∀ p ∈ rows.foldl (fun m r => jsInsert m (addressKey r) r) m, addressKey p.2 = p.1)
    ∧ ((rows.foldl (fun m r => jsInsert m (addressKey r) r) m).map Prod.fst).Nodup
    ∧ (∀ k, k ∈ (rows.foldl (fun m r => jsInsert m (addressKey r) r) m).map Prod.fst ↔
        k ∈ m.map Prod.fst ∨ ∃ r ∈ rows, addressKey r = k) := by
  induction rows with
  | nil => intro m h1 h2; exact ⟨h1, h2, fun k => by simp⟩
  | cons r rs ih =>
    intro m h1 h2
    rw [List.foldl_cons]
    have h1' : ∀ p ∈ jsInsert m (addressKey r) r, addressKey p.2 = p.1 :=
      jsInsert_pred _ m _ r h1 rfl
    have h2' : ((jsInsert m (addressKey r) r).map Prod.fst).Nodup := by
      by_cases hmem : addressKey r ∈ m.map Prod.fst
      · rw [jsInsert_keys_of_mem m _ r hmem]; exact h2
      · rw [jsInsert_keys_of_not_mem m _ r hmem]
        rw [List.nodup_append]
        exact ⟨h2, List.nodup_singleton _,
          fun a ha hb => hmem ((List.mem_singleton.1 hb) ▸ ha)⟩
    rcases ih (jsInsert m (addressKey r) r) h1' h2' with ⟨g1, g2, g3⟩
    refine ⟨g1, g2, fun k => ?_⟩
    rw [g3 k, jsInsert_keys_mem]
    constructor
    · rintro ((h | h) | h)
      · exact Or.inl h
      · exact Or.inr ⟨r, List.mem_cons_self r rs, h.symm⟩
      · rcases h with ⟨x, hx, hk⟩
        exact Or.inr ⟨x, List.mem_cons_of_mem r hx, hk⟩
    · rintro (h | h)
      · exact Or.inl (Or.inl h)
      · rcases h with ⟨x, hx, hk⟩
        rcases List.mem_cons.1 hx with he | he
        · exact Or.inl (Or.inr (he ▸ hk.symm))
        · exact Or.inr ⟨x, he, hk⟩

lemma buildAddressMap_consistent (rows : List Record) :
    ∀ p ∈ buildAddressMap rows, addressKey p.2 = p.1 :=
  (buildAddressMap_inv rows [] (by simp) (by simp)).1

lemma buildAddressMap_keys_nodup (rows : List Record) :
    ((buildAddressMap rows).map Prod.fst).Nodup :=
  (buildAddressMap_inv rows [] (by simp) (by simp)).2.1

lemma mem_buildAddressMap_keys (rows : List Record) (k : String) :
    k ∈ (buildAddressMap rows).map Prod.fst ↔ ∃ r ∈ rows, addressKey r = k := by
  have h := (buildAddressMap_inv rows [] (by simp) (by simp)).2.2 k
  unfold buildAddressMap
  simpa using h

/-- Exactly one unique row carries any address key occurring in the input:
the deduplicated list triggers exactly one geocode call per key. -/
lemma uniqueRows_countP_eq_one (rows : List Record) (k : String)
    (hk : ∃ r ∈ rows, addressKey r = k) :
    (uniqueRows rows).countP (fun r => addressKey r == k) = 1 := by
  unfold uniqueRows
  rw [List.countP_map]
  have hcongr : (buildAddressMap rows).countP ((fun r => addressKey r == k) ∘ Prod.snd)
      = (buildAddressMap rows).countP ((fun s => s == k) ∘ Prod.fst) := by
    apply List.countP_congr
    intro p hp
    have := buildAddressMap_consistent rows p hp
    simp [Function.comp, this]
  rw [hcongr, ← List.countP_map]
  have hmem : k ∈ (buildAddressMap rows).map Prod.fst :=
    (mem_buildAddressMap_keys rows k).2 hk
  have := List.count_eq_one_of_mem (buildAddressMap_keys_nodup rows) hmem
  simpa [List.count] using this

/-- The failure counter of the geocoding loop counts exactly the unique
rows whose query the collaborator fails to resolve. -/
lemma geocodePass_snd (g : String → Option Coord) :
    ∀ (uniq : List Record) (acc : List (String × Coord) × Nat),
    (uniq.foldl (geocodeStep g) acc).2
      = acc.2 + (uniq.filter (fun r => (g (geocodeQuery r)).isNone)).length := by
  intro uniq
  induction uniq with
  | nil => intro acc; simp
  | cons r rs ih =>
    intro acc
    rw [List.foldl_cons, ih]
    cases hg : g (geocodeQuery r) with
    | none => simp [geocodeStep, hg, List.filter_cons]; omega
    | some c => simp [geocodeStep, hg, List.filter_cons]

/-- The rows of the individuals output are exactly the input rows whose
address key resolved, in order. -/
lemma filterMap_rows_of_map (m : List (String × Coord)) :
    ∀ rs : List Record,
    ((rs.filterMap (fun r =>
        (jsLookup m (addressKey r)).map (fun geo =>
          (⟨r, geo.lat, geo.lng, geo.address,
            getField r FIRST_NAME_KEYS, getField r LAST_NAME_KEYS⟩ : Individual)))).map
      (fun i => i.row))
      = rs.filter (fun r => (jsLookup m (addressKey r)).isSome) := by
  intro rs
  induction rs with
  | nil => rfl
  | cons r rest ih =>
    rw [List.filterMap_cons, List.filter_cons]
    cases hl : jsLookup m (addressKey r) with
    | none => simpa [hl] using ih
    | some geo => simpa [hl] using ih

/-- Every row whose address key resolved to `c` yields an individual at
exactly `c`'s coordinate. -/
lemma filterMap_coords_of_lookup (m : List (String × Coord)) (k : String) (c : Coord)
    (hc : jsLookup m k = some c) :
    ∀ rs : List Record,
    (((rs.filterMap (fun r =>
        (jsLookup m (addressKey r)).map (fun geo =>
          (⟨r, geo.lat, geo.lng, geo.address,
            getField r FIRST_NAME_KEYS, getField r LAST_NAME_KEYS⟩ : Individual)))).filter
        (fun i => addressKey i.row == k)).map (fun i => (i.lat, i.lng)))
      = List.replicate (rs.countP (fun r => addressKey r == k)) (c.lat, c.lng) := by
  intro rs
  induction rs with
  | nil => rfl
  | cons r rest ih =>
    by_cases hk : addressKey r = k
    · simp [List.filterMap_cons, List.countP_cons, List.filter_cons, hc, hk,
        List.replicate_succ, ih]
    · cases hl : jsLookup m (addressKey r) with
      | none => simp [List.filterMap_cons, List.countP_cons, hl, hk, ih]
      | some geo =>
        simp [List.filterMap_cons, List.countP_cons, List.filter_cons, hl, hk, ih]

/-- C1: two input records with the same address key trigger exactly one
external geocode invocation (the deduplicated list contains exactly one
row with that key, and the loop performs one call per deduplicated row),
and when the lookup for that key succeeds with coordinate `c`, every
input record sharing the key appears in the output assigned exactly
`(c.lat, c.lng)`. -/
theorem c1_dedup_single_geocode_shared_coordinate
    (g : String → Option Coord) (rows : List Record) (r1 r2 : Record)
    (h1 : r1 ∈ rows) (h2 : r2 ∈ rows) (hk : addressKey r1 = addressKey r2) :
    (uniqueRows rows).countP (fun r => addressKey r == addressKey r1) = 1
    ∧ ∀ c, jsLookup (geocodedMap g rows) (addressKey r1) = some c →
      ((allIndividuals g rows).filter
          (fun i => addressKey i.row == addressKey r1)).map (fun i => (i.lat, i.lng))
        = List.replicate (rows.countP (fun r => addressKey r == addressKey r1))
            (c.lat, c.lng) := by
  constructor
  · exact uniqueRows_countP_eq_one rows (addressKey r1) ⟨r1, h1, rfl⟩
  · intro c hc
    exact filterMap_coords_of_lookup (geocodedMap g rows) (addressKey r1) c hc rows

/-- C7: the reported `failedCount` is the number of unique addresses whose
geocode attempt failed (so exactly 1 when exactly one of the unique
addresses fails), and the output individuals are exactly the input rows
whose address key resolved — rows sharing a failed address are dropped
while successfully resolved rows are all retained. -/
theorem c7_failed_addresses_dropped (g : String → Option Coord) (rows : List Record) :
    failedCount g rows
      = ((uniqueRows rows).filter (fun r => (g (geocodeQuery r)).isNone)).length
    ∧ (allIndividuals g rows).map (fun i => i.row)
      = rows.filter (fun r => (jsLookup (geocodedMap g rows) (addressKey r)).isSome)
    ∧ (((uniqueRows rows).filter (fun r => (g (geocodeQuery r)).isNone)).length = 1 →
        failedCount g rows = 1) := by
  have hfst : failedCount g rows
      = ((uniqueRows rows).filter (fun r => (g (geocodeQuery r)).isNone)).length := by
    unfold failedCount geocodePass
    rw [geocodePass_snd g (uniqueRows rows) ([], 0)]
    simp
  refine ⟨hfst, ?_, fun h => hfst.trans h⟩
  unfold allIndividuals
  exact filterMap_rows_of_map (geocodedMap g rows) rows

/-- Witness data: two rows sharing one address plus a collaborator that
resolves every query. -/
def wRowA : Record := [("Address", "1 Main St")]
def wRowB : Record := [("Address", "1 Main St"), ("Phone", "5551234")]
def wGeoOk : String → Option Coord := fun q => some ⟨1, 2, q⟩

/-- Witness for C1: the two rows sharing `1 Main St` cause one geocode call
and both receive coordinate `(1, 2)`. -/
theorem c1_witness :
    (uniqueRows [wRowA, wRowB]).countP
      (fun r => addressKey r == addressKey wRowA) = 1
    ∧ ((allIndividuals wGeoOk [wRowA, wRowB]).filter
        (fun i => addressKey i.row == addressKey wRowA)).map (fun i => (i.lat, i.lng))
      = List.replicate 2 ((1 : ℝ), (2 : ℝ)) := by
  have h := c1_dedup_single_geocode_shared_coordinate wGeoOk [wRowA, wRowB]
    wRowA wRowB (by decide) (by decide) (by decide)
  refine ⟨h.1, ?_⟩
  have h2 := h.2 ⟨1, 2, "1 Main St"⟩ rfl
  have hcnt : ([wRowA, wRowB] : List Record).countP
      (fun r => addressKey r == addressKey wRowA) = 2 := by decide
  rw [hcnt] at h2
  exact h2

/-- Witness data for C7: three rows over two unique addresses, the second
of which fails to geocode. -/
def wRowC : Record := [("Address", "2 Oak St")]
def wGeoPartial : String → Option Coord :=
  fun q => if q == "2 Oak St" then none else some ⟨3, 4, q⟩

/-- Witness for C7: exactly one of the two unique addresses fails, the
reported count is 1, and the individuals output keeps exactly the rows
whose address key resolved. -/
theorem c7_witness :
    failedCount wGeoPartial [wRowA, wRowC, wRowB] = 1
    ∧ (allIndividuals wGeoPartial [wRowA, wRowC, wRowB]).map (fun i => i.row)
      = [wRowA, wRowB] := by
  have h := c7_failed_addresses_dropped wGeoPartial [wRowA, wRowC, wRowB]
  refine ⟨h.2.2 (by decide), ?_⟩
  rw [h.2.1]
  decide

/-! Neighborhood aggregation (claim C8). -/

lemma dedupFirst_aux :
    ∀ (l acc : List String), acc.Nodup →
    ((l.foldl (fun acc x => if acc.contains x then acc else acc ++ [x]) acc).Nodup
    ∧ ∀ x, x ∈ l.foldl (fun acc x => if acc.contains x then acc else acc ++ [x]) acc
        ↔ x ∈ acc ∨ x ∈ l) := by
  intro l
  induction l with
  | nil => intro acc h; exact ⟨h, fun x => by simp⟩
  | cons y ys ih =>
    intro acc h
    rw [List.foldl_cons]
    by_cases hy : acc.contains y
    · rw [if_pos hy]
      have hmem : y ∈ acc := by simpa using hy
      rcases ih acc h with ⟨g1, g2⟩
      refine ⟨g1, fun x => (g2 x).trans ?_⟩
      constructor
      · rintro (hx | hx)
        · exact Or.inl hx
        · exact Or.inr (List.mem_cons_of_mem y hx)
      · rintro (hx | hx)
        · exact Or.inl hx
        · rcases List.mem_cons.1 hx with he | he
          · exact Or.inl (he ▸ hmem)
          · exact Or.inr he
    · rw [if_neg hy]
      have hnotmem : y ∉ acc := by simpa using hy
      have hacc' : (acc ++ [y]).Nodup := by
        rw [List.nodup_append]
        exact ⟨h, List.nodup_singleton y,
          fun a ha hb => hnotmem ((List.mem_singleton.1 hb) ▸ ha)⟩
      rcases ih (acc ++ [y]) hacc' with ⟨g1, g2⟩
      refine ⟨g1, fun x => (g2 x).trans ?_⟩
      rw [List.mem_append, List.mem_singleton, List.mem_cons]
      tauto

lemma dedupFirst_nodup (l : List String) : (dedupFirst l).Nodup :=
  (dedupFirst_aux l [] List.nodup_nil).1

lemma mem_dedupFirst (l : List String) (x : String) : x ∈ dedupFirst l ↔ x ∈ l := by
  have h := (dedupFirst_aux l [] List.nodup_nil).2 x
  unfold dedupFirst
  simpa using h

/-- The sorted non-`"Other"` part of the aggregated list. -/
def sortedNonOther (results : List Individual) : List String :=
  List.insertionSort localeLe
    ((dedupFirst (allNeighborhoodsRaw results)).filter (fun n => !(n == "Other")))

lemma uniqueNeighborhoods_eq (results : List Individual) :
    uniqueNeighborhoods results =
      if (allNeighborhoodsRaw results).contains "Other"
      then sortedNonOther results ++ ["Other"] else sortedNonOther results := rfl

lemma sortedNonOther_not_other (results : List Individual) :
    ∀ x ∈ sortedNonOther results, ¬ x = "Other" := by
  intro x hx
  have hperm : (sortedNonOther results).Perm
      ((dedupFirst (allNeighborhoodsRaw results)).filter (fun n => !(n == "Other"))) :=
    List.perm_insertionSort _ _
  have hx2 := hperm.mem_iff.1 hx
  have := List.of_mem_filter hx2
  simpa using this

lemma sortedNonOther_nodup (results : List Individual) :
    (sortedNonOther results).Nodup := by
  have hperm : (sortedNonOther results).Perm
      ((dedupFirst (allNeighborhoodsRaw results)).filter (fun n => !(n == "Other"))) :=
    List.perm_insertionSort _ _
  exact hperm.nodup_iff.2 ((dedupFirst_nodup _).filter _)

lemma mem_sortedNonOther (results : List Individual) (x : String) :
    x ∈ sortedNonOther results ↔ x ∈ allNeighborhoodsRaw results ∧ ¬ x = "Other" := by
  have hperm : (sortedNonOther results).Perm
      ((dedupFirst (allNeighborhoodsRaw results)).filter (fun n => !(n == "Other"))) :=
    List.perm_insertionSort _ _
  rw [hperm.mem_iff, List.mem_filter, mem_dedupFirst]
  simp

/-- C8: the aggregated neighborhood list has no duplicate spellings; a
blank neighborhood on any row maps to the sentinel `"Other"`; `"Other"` is
last whenever any row maps to it; the non-`"Other"` entries are sorted;
membership is exactly the set of per-row derived neighborhoods; and the
concrete instance `["Zeta", "", "Alpha", "Alpha"]` aggregates to
`["Alpha", "Zeta", "Other"]`. -/
theorem c8_neighborhood_aggregation :
    (∀ results : List Individual, (uniqueNeighborhoods results).Nodup)
    ∧ (∀ (results : List Individual) (r : Individual), r ∈ results →
        trimS (getField r.row NEIGHBORHOOD_KEYS) = "" →
        "Other" ∈ allNeighborhoodsRaw results)
    ∧ (∀ results : List Individual, "Other" ∈ allNeighborhoodsRaw results →
        (uniqueNeighborhoods results).getLast? = some "Other")
    ∧ (∀ results : List Individual,
        ((uniqueNeighborhoods results).filter (fun n => !(n == "Other"))).Sorted localeLe)
    ∧ (∀ (results : List Individual) (x : String),
        x ∈ uniqueNeighborhoods results ↔ x ∈ allNeighborhoodsRaw results)
    ∧ uniqueNeighborhoods
        [⟨[("Neighborhood", "Zeta")], 0, 0, "", "", ""⟩,
         ⟨[("Neighborhood", "")], 0, 0, "", "", ""⟩,
         ⟨[("Neighborhood", "Alpha")], 0, 0, "", "", ""⟩,
         ⟨[("Neighborhood", "Alpha")], 0, 0, "", "", ""⟩]
      = ["Alpha", "Zeta", "Other"] := by
  have hsorted : ∀ results : List Individual,
      (sortedNonOther results).Sorted localeLe := by
    intro results
    exact List.sorted_insertionSort _ _
  refine ⟨?_, ?_, ?_, ?_, ?_, by decide⟩
  · intro results
    rw [uniqueNeighborhoods_eq]
    by_cases ho : (allNeighborhoodsRaw results).contains "Other"
    · rw [if_pos ho, List.nodup_append]
      exact ⟨sortedNonOther_nodup results, List.nodup_singleton _,
        fun a ha hb => sortedNonOther_not_other results a ha (List.mem_singleton.1 hb)⟩
    · rw [if_neg ho]
      exact sortedNonOther_nodup results
  · intro results r hr hblank
    unfold allNeighborhoodsRaw
    refine List.mem_map.2 ⟨r, hr, ?_⟩
    simp [hblank]
  · intro results ho
    rw [uniqueNeighborhoods_eq, if_pos (by simpa using ho)]
    exact List.getLast?_concat _
  · intro results
    rw [uniqueNeighborhoods_eq]
    by_cases ho : (allNeighborhoodsRaw results).contains "Other"
    · rw [if_pos ho, List.filter_append]
      have h1 : (sortedNonOther results).filter (fun n => !(n == "Other"))
          = sortedNonOther results :=
        List.filter_eq_self.2 (fun a ha => by
          simpa using sortedNonOther_not_other results a ha)
      have h2 : (["Other"] : List String).filter (fun n => !(n == "Other")) = [] := rfl
      rw [h1, h2, List.append_nil]
      exact hsorted results
    · rw [if_neg ho]
      have h1 : (sortedNonOther results).filter (fun n => !(n == "Other"))
          = sortedNonOther results :=
        List.filter_eq_self.2 (fun a ha => by
          simpa using sortedNonOther_not_other results a ha)
      rw [h1]
      exact hsorted results
  · intro results x
    rw [uniqueNeighborhoods_eq]
    by_cases ho : (allNeighborhoodsRaw results).contains "Other"
    · rw [if_pos ho, List.mem_append, List.mem_singleton, mem_sortedNonOther]
      have hOther : "Other" ∈ allNeighborhoodsRaw results := by simpa using ho
      constructor
      · rintro (⟨hm, _⟩ | he)
        · exact hm
        · exact he ▸ hOther
      · intro hm
        by_cases hx : x = "Other"
        · exact Or.inr hx
        · exact Or.inl ⟨hm, hx⟩
    · rw [if_neg ho, mem_sortedNonOther]
      have hOther : "Other" ∉ allNeighborhoodsRaw results := by simpa using ho
      constructor
      · rintro ⟨hm, _⟩; exact hm
      · intro hm
        refine ⟨hm, fun hx => hOther (hx ▸ hm)⟩

/-! String-normalization lemmas shared by the activity claims. -/

lemma dropWhile_dropWhile (p : Char → Bool) :
    ∀ l : List Char, List.dropWhile p (List.dropWhile p l) = List.dropWhile p l := by
  intro l
  induction l with
  | nil => rfl
  | cons c cs ih =>
    by_cases hc : p c
    · rw [List.dropWhile_cons_of_pos hc, ih]
    · rw [List.dropWhile_cons_of_neg hc, List.dropWhile_cons_of_neg hc]

lemma head?_dropWhile_false (p : Char → Bool) :
    ∀ (l : List Char) (c : Char), (List.dropWhile p l).head? = some c → p c = false := by
  intro l
  induction l with
  | nil => intro c h; simp at h
  | cons d ds ih =>
    intro c h
    by_cases hd : p d
    · rw [List.dropWhile_cons_of_pos hd] at h
      exact ih c h
    · rw [List.dropWhile_cons_of_neg hd] at h
      simp at h
      rw [h] at hd
      simpa using hd

lemma dropWhile_eq_self_of_head? (p : Char → Bool) (l : List Char)
    (h : ∀ c, l.head? = some c → p c = false) : List.dropWhile p l = l := by
  cases l with
  | nil => rfl
  | cons c cs => exact List.dropWhile_cons_of_neg (by simp [h c rfl])

lemma getLast?_dropWhile (p : Char → Bool) :
    ∀ l : List Char, List.dropWhile p l ≠ [] →
      (List.dropWhile p l).getLast? = l.getLast? := by
  intro l
  induction l with
  | nil => intro h; exact absurd rfl h
  | cons c cs ih =>
    intro h
    by_cases hc : p c
    · rw [List.dropWhile_cons_of_pos hc] at h ⊢
      have hcs : cs ≠ [] := by
        intro he; rw [he] at h; exact h rfl
      rw [ih h]
      cases cs with
      | nil => exact absurd rfl hcs
      | cons d ds => rw [List.getLast?_cons_cons]
    · rw [List.dropWhile_cons_of_neg hc]

lemma trimL_idem (l : List Char) : trimL (trimL l) = trimL l := by
  unfold trimL
  have h1 : List.dropWhile jsWS
      (((l.dropWhile jsWS).reverse.dropWhile jsWS).reverse)
      = ((l.dropWhile jsWS).reverse.dropWhile jsWS).reverse := by
    apply dropWhile_eq_self_of_head?
    intro c hc
    rw [List.head?_reverse] at hc
    by_cases hB : (l.dropWhile jsWS).reverse.dropWhile jsWS = []
    · rw [hB] at hc; simp at hc
    · rw [getLast?_dropWhile jsWS _ hB, List.getLast?_reverse] at hc
      exact head?_dropWhile_false jsWS _ c hc
  rw [h1, List.reverse_reverse, dropWhile_dropWhile]

lemma normalizeName_trimS (s : String) : normalizeName (trimS s) = normalizeName s := by
  unfold normalizeName trimS
  rw [show (String.mk (trimL s.data)).data = trimL s.data from rfl, trimL_idem]

lemma trimL_eq_nil_all_ws (l : List Char) (h : trimL l = []) :
    ∀ c ∈ l, jsWS c := by
  unfold trimL at h
  rw [List.reverse_eq_nil_iff] at h
  have h2 : ∀ c ∈ (l.dropWhile jsWS).reverse, jsWS c :=
    List.dropWhile_eq_nil_iff.1 h
  have h3 : ∀ c ∈ l.dropWhile jsWS, jsWS c := by
    intro c hc; exact h2 c (List.mem_reverse.2 hc)
  intro c hc
  rw [← List.takeWhile_append_dropWhile jsWS l] at hc
  rcases List.mem_append.1 hc with h4 | h4
  · exact List.mem_takeWhile_imp h4
  · exact h3 c h4

lemma all_ws_trimL_eq_nil (l : List Char) (h : ∀ c ∈ l, jsWS c) :
    trimL l = [] := by
  unfold trimL
  rw [List.dropWhile_eq_nil_iff.2 h]
  rfl

lemma splitSemiL_chars : ∀ (l : List Char), ∀ piece ∈ splitSemiL l, ∀ c ∈ piece, c ∈ l := by
  intro l
  induction l with
  | nil =>
    intro piece hp c hc
    simp [splitSemiL] at hp
    rw [hp] at hc
    simp at hc
  | cons d ds ih =>
    intro piece hp c hc
    unfold splitSemiL at hp
    by_cases hd : d = ';'
    · rw [if_pos hd] at hp
      rcases List.mem_cons.1 hp with he | he
      · rw [he] at hc; simp at hc
      · exact List.mem_cons_of_mem d (ih piece he c hc)
    · rw [if_neg hd] at hp
      cases hsp : splitSemiL ds with
      | nil =>
        rw [hsp] at hp; simp at hp; rw [hp] at hc
        rw [List.mem_singleton] at hc
        rw [hc]
        exact List.mem_cons_self d ds
      | cons p ps =>
        rw [hsp] at hp
        rcases List.mem_cons.1 hp with he | he
        · rw [he] at hc
          rcases List.mem_cons.1 hc with hce | hce
          · exact hce ▸ List.mem_cons_self d ds
          · exact List.mem_cons_of_mem d
              (ih p (hsp ▸ List.mem_cons_self p ps) c hce)
        · exact List.mem_cons_of_mem d
            (ih piece (hsp ▸ List.mem_cons_of_mem p he) c hc)

/-- A blank (all-whitespace) facilitators field yields only pieces that
normalize to the empty string. -/
lemma splitSemi_blank_normalizes_empty (s : String)
    (h : trimS s = "") (n : String) (hn : n ∈ splitSemi s) :
    normalizeName n = "" := by
  have hws : ∀ c ∈ s.data, jsWS c := by
    apply trimL_eq_nil_all_ws
    have : (trimS s).data = (("" : String)).data := by rw [h]
    simpa [trimS] using this
  rcases List.mem_map.1 hn with ⟨piece, hp, he⟩
  have hall : ∀ c ∈ piece, jsWS c := fun c hc =>
    hws c (splitSemiL_chars s.data piece hp c hc)
  rw [← he]
  unfold normalizeName
  rw [show (String.mk piece).data = piece from rfl,
    all_ws_trimL_eq_nil piece hall]
  rfl

/-! Facilitator home lookup (claim C10). -/

lemma homeLookup_entry_inv (homes : List Individual) :
    ∀ p ∈ homeLookup homes, p.1 = fullNameOf p.2 ∧ p.1 ≠ "" := by
  unfold homeLookup
  suffices h : ∀ (hs : List Individual) (m : List (String × Individual)),
      (∀ p ∈ m, p.1 = fullNameOf p.2 ∧ p.1 ≠ "") →
      ∀ p ∈ hs.foldl
        (fun m h => let fullName := fullNameOf h;
          if fullName == "" then m else jsInsert m fullName h) m,
        p.1 = fullNameOf p.2 ∧ p.1 ≠ "" by
    exact h homes [] (by simp)
  intro hs
  induction hs with
  | nil => intro m hm; exact hm
  | cons x xs ih =>
    intro m hm
    rw [List.foldl_cons]
    by_cases hx : fullNameOf x == ""
    · simp only [hx, if_true]
      exact ih m hm
    · simp only [hx, if_false]
      refine ih _ (jsInsert_pred _ m _ x hm ⟨rfl, ?_⟩)
      simpa using hx

lemma jsLookup_or_append {α : Type} (m₁ m₂ : List (String × α)) (k : String) :
    jsLookup (m₁ ++ m₂) k = (jsLookup m₁ k).or (jsLookup m₂ k) := by
  unfold jsLookup
  rw [List.find?_append]
  cases m₁.find? (fun p => p.1 == k) <;> simp

/-- C10 core: for a non-empty normalized name, the home lookup returns the
last individual in the upload order whose normalized full name matches —
later individuals silently overwrite earlier ones. -/
lemma homeLookup_last_wins (homes : List Individual) (nm : String) (hnm : nm ≠ "") :
    jsLookup (homeLookup homes) nm
      = homes.reverse.find? (fun h => fullNameOf h == nm) := by
  unfold homeLookup
  suffices h : ∀ (hs : List Individual) (m : List (String × Individual)),
      jsLookup (hs.foldl
        (fun m h => let fullName := fullNameOf h;
          if fullName == "" then m else jsInsert m fullName h) m) nm
      = (hs.reverse.find? (fun h => fullNameOf h == nm)).or (jsLookup m nm) by
    rw [h homes []]
    simp [jsLookup]
  intro hs
  induction hs with
  | nil => intro m; simp
  | cons x xs ih =>
    intro m
    rw [List.foldl_cons, List.reverse_cons, List.find?_append, Option.or_assoc]
    rw [ih]
    congr 1
    by_cases hx : fullNameOf x == ""
    · simp only [hx, if_true]
      have hxno : (fullNameOf x == nm) = false := by
        have hxe : fullNameOf x = "" := by simpa using hx
        simp [hxe]
        intro he
        exact hnm he.symm
      simp [List.find?, hxno]
    · simp only [hx, Bool.false_eq_true, if_false]
      rw [jsLookup_jsInsert]
      by_cases he : fullNameOf x = nm
      · simp [List.find?, he]
      · have he2 : ¬ nm = fullNameOf x := fun h2 => he h2.symm
        have he3 : (fullNameOf x == nm) = false := by simpa using he
        simp [List.find?, he2, he3]

lemma jsLookup_mem {α : Type} (m : List (String × α)) (k : String) (v : α)
    (h : jsLookup m k = some v) : (k, v) ∈ m := by
  unfold jsLookup at h
  cases hf : m.find? (fun p => p.1 == k) with
  | none => rw [hf] at h; simp at h
  | some p =>
    rw [hf] at h
    obtain ⟨a, b⟩ := p
    have h2 : b = v := by simpa using h
    have hk : a = k := by simpa using List.find?_some hf
    have hmem := List.mem_of_find?_eq_some hf
    rw [← hk, ← h2]
    exact hmem

lemma addAssignment_entry_pred (P : String × List Assignment → Prop)
    (fa : List (String × List Assignment)) (k : String) (a : Assignment)
    (hfa : ∀ e ∈ fa, P e)
    (hgrow : ∀ acts, (k, acts) ∈ fa → P (k, acts ++ [a]))
    (hfresh : P (k, [a])) :
    ∀ e ∈ addAssignment fa k a, P e := by
  unfold addAssignment
  cases hl : jsLookup fa k with
  | some acts =>
    exact jsInsert_pred P fa k (acts ++ [a]) hfa (hgrow acts (jsLookup_mem fa k acts hl))
  | none =>
    intro e he
    rcases List.mem_append.1 he with h | h
    · exact hfa e h
    · rw [List.mem_singleton.1 h]
      exact hfresh

/-- Invariant of `facilitatorActivities` entries: the bucket key resolves
in the home lookup (buckets are only created on a hit), and every
assignment in the bucket carries a facilitator display name normalizing
back to the bucket key. -/
def faInv (homes : List Individual) (e : String × List Assignment) : Prop :=
  (jsLookup (homeLookup homes) e.1).isSome
  ∧ ∀ a ∈ e.2, normalizeName a.facilitator = e.1

lemma facStep_preserves_faInv (homes : List Individual)
    (A B C D : String) (acc : List (String × List Assignment) × Bool)
    (name : String) (hacc : ∀ e ∈ acc.1, faInv homes e) :
    ∀ e ∈ (facStep homes A B C D acc name).1, faInv homes e := by
  simp only [facStep]
  cases hl : jsLookup (homeLookup homes) (normalizeName name) with
  | none => exact hacc
  | some h =>
    apply addAssignment_entry_pred
    · exact hacc
    · intro acts hmem
      have hinv := hacc _ hmem
      refine ⟨hinv.1, fun a ha => ?_⟩
      rcases List.mem_append.1 ha with h1 | h1
      · exact hinv.2 a h1
      · rw [List.mem_singleton.1 h1]
        exact normalizeName_trimS name
    · refine ⟨by rw [hl]; rfl, fun a ha => ?_⟩
      rw [List.mem_singleton.1 ha]
      exact normalizeName_trimS name

lemma nameFold_preserves_faInv (homes : List Individual) (A B C D : String) :
    ∀ (names : List String) (acc : List (String × List Assignment) × Bool),
    (∀ e ∈ acc.1, faInv homes e) →
    ∀ e ∈ (names.foldl (facStep homes A B C D) acc).1, faInv homes e := by
  intro names
  induction names with
  | nil => intro acc hacc; exact hacc
  | cons n ns ih =>
    intro acc hacc
    rw [List.foldl_cons]
    exact ih _ (facStep_preserves_faInv homes A B C D acc n hacc)

lemma processRow_preserves_faInv (homes : List Individual) (st : ActState)
    (row : Record) (h : ∀ e ∈ st.facilitatorActivities, faInv homes e) :
    ∀ e ∈ (processRow homes st row).facilitatorActivities, faInv homes e := by
  simp only [processRow]
  split
  · exact h
  · split
    · exact h
    · split <;> split <;>
        exact nameFold_preserves_faInv homes _ _ _ _ _ _ h

lemma activityState_fa_inv (homes : List Individual) (rows : List Record) :
    ∀ e ∈ (activityState homes rows).facilitatorActivities, faInv homes e := by
  unfold activityState
  suffices h : ∀ (rs : List Record) (st : ActState),
      (∀ e ∈ st.facilitatorActivities, faInv homes e) →
      ∀ e ∈ (rs.foldl (processRow homes) st).facilitatorActivities, faInv homes e by
    exact h rows _ (by simp)
  intro rs
  induction rs with
  | nil => intro st hst; exact hst
  | cons r rest ih =>
    intro st hst
    rw [List.foldl_cons]
    exact ih _ (processRow_preserves_faInv homes st r hst)

/-- The markers produced by the marker loop, as one flat list per bucket. -/
lemma markerPass_fst_flatMap (homes : List Individual) :
    ∀ (fa : List (String × List Assignment))
      (acc : List ActivityMarker × List (String × List String)),
    (fa.foldl (markerStep homes) acc).1
      = acc.1 ++ fa.flatMap (fun e =>
          match jsLookup (homeLookup homes) e.1 with
          | some base => e.2.enum.map (fun p => mkMarker e.1 base e.2.length p.1 p.2)
          | none => []) := by
  intro fa
  induction fa with
  | nil => intro acc; simp
  | cons e es ih =>
    intro acc
    rw [List.foldl_cons, List.flatMap_cons]
    cases hl : jsLookup (homeLookup homes) e.1 with
    | none =>
      rw [ih]
      simp [markerStep, hl]
    | some base =>
      rw [ih]
      simp [markerStep, hl]

lemma activityMarkers_eq_flatMap (homes : List Individual) (rows : List Record) :
    activityMarkers homes rows
      = (activityState homes rows).facilitatorActivities.flatMap (fun e =>
          match jsLookup (homeLookup homes) e.1 with
          | some base => e.2.enum.map (fun p => mkMarker e.1 base e.2.length p.1 p.2)
          | none => []) := by
  unfold activityMarkers markerPass
  rw [markerPass_fst_flatMap]
  rfl

/-- The empty string is never a key of the home lookup. -/
lemma homeLookup_empty_key (homes : List Individual) :
    jsLookup (homeLookup homes) "" = none := by
  apply jsLookup_eq_none
  intro hmem
  rcases List.mem_map.1 hmem with ⟨p, hp, hfst⟩
  exact (homeLookup_entry_inv homes p hp).2 hfst

/-- C10: the facilitator home lookup maps each non-empty normalized full
name to the last individual in the list carrying it (later entries
silently overwrite earlier ones); the empty name is never a key, so an
individual whose first and last names are blank is excluded from the
lookup and can never be matched; and every generated marker is placed
relative to the home coordinate of the individual the lookup returns for
its facilitator's normalized name. -/
theorem c10_home_lookup_last_wins :
    (∀ (homes : List Individual) (nm : String), nm ≠ "" →
      jsLookup (homeLookup homes) nm
        = homes.reverse.find? (fun h => fullNameOf h == nm))
    ∧ (∀ homes : List Individual, jsLookup (homeLookup homes) "" = none)
    ∧ (∀ (homes : List Individual) (h : Individual), fullNameOf h = "" →
        ∀ p ∈ homeLookup homes, p.2 ≠ h)
    ∧ (∀ (homes : List Individual) (rows : List Record) (m : ActivityMarker),
        m ∈ activityMarkers homes rows →
        ∃ base, jsLookup (homeLookup homes) (normalizeName m.facilitator) = some base
          ∧ ∃ i n, m.lat = base.lat + (markerOffset i n).1
            ∧ m.lng = base.lng + (markerOffset i n).2) := by
  refine ⟨homeLookup_last_wins, homeLookup_empty_key, ?_, ?_⟩
  · intro homes h hblank p hp he
    have hinv := homeLookup_entry_inv homes p hp
    exact hinv.2 (hinv.1.trans (by rw [he, hblank]))
  · intro homes rows m hm
    rw [activityMarkers_eq_flatMap] at hm
    rcases List.mem_flatMap.1 hm with ⟨e, he, hme⟩
    have hinv := activityState_fa_inv homes rows e he
    cases hl : jsLookup (homeLookup homes) e.1 with
    | none => rw [hl] at hme; simp at hme
    | some base =>
      rw [hl] at hme
      rcases List.mem_map.1 hme with ⟨p, hp, heq⟩
      have hfac : normalizeName m.facilitator = e.1 := by
        rw [← heq]
        exact hinv.2 p.2 (List.snd_mem_of_mem_enum hp)
      refine ⟨base, by rw [hfac]; exact hl, p.1, e.2.length, ?_, ?_⟩
      · rw [← heq]; rfl
      · rw [← heq]; rfl

/-- Witness data for C10: two individuals whose names normalize to
`"jane doe"` plus one with blank names. -/
def wJane1 : Individual := ⟨[], 1, 0, "old", "Jane", "Doe"⟩
def wJane2 : Individual := ⟨[], 2, 0, "new", "JANE", "doe"⟩
def wBlankInd : Individual := ⟨[], 3, 0, "x", "", ""⟩
def wHomes10 : List Individual := [wJane1, wJane2, wBlankInd]

/-- Witness for C10: the lookup returns the later `JANE doe` entry, and the
empty key resolves to nothing. -/
theorem c10_witness :
    jsLookup (homeLookup wHomes10) "jane doe"
      = wHomes10.reverse.find? (fun h => fullNameOf h == "jane doe")
    ∧ jsLookup (homeLookup wHomes10) "jane doe" = some wJane2
    ∧ jsLookup (homeLookup wHomes10) "" = none :=
  ⟨c10_home_lookup_last_wins.1 wHomes10 "jane doe" (by decide), rfl,
   c10_home_lookup_last_wins.2.1 wHomes10⟩

/-! Row classification (claim C5). -/

/-- The activity type of the row maps to a recognized code. -/
def isRecognized (row : Record) : Bool :=
  (ACTIVITY_TYPE_MAP (toLowerS (trimS (getField row ACTIVITY_TYPE_KEYS)))).isSome

/-- The facilitators field of the row is blank. -/
def facBlank (row : Record) : Bool :=
  trimS (getField row FACILITATORS_KEYS) == ""

/-- At least one semicolon-separated facilitator name resolves. -/
def anyFacMatch (homes : List Individual) (row : Record) : Bool :=
  (splitSemi (getField row FACILITATORS_KEYS)).any
    (fun n => (jsLookup (homeLookup homes) (normalizeName n)).isSome)

lemma facStep_snd (homes : List Individual) (A B C D : String) :
    ∀ (names : List String) (acc : List (String × List Assignment) × Bool),
    (names.foldl (facStep homes A B C D) acc).2
      = (acc.2 || names.any
          (fun n => (jsLookup (homeLookup homes) (normalizeName n)).isSome)) := by
  intro names
  induction names with
  | nil => intro acc; simp
  | cons n ns ih =>
    intro acc
    rw [List.foldl_cons, ih, List.any_cons]
    cases hl : jsLookup (homeLookup homes) (normalizeName n) with
    | none => simp [facStep, hl]
    | some h => simp [facStep, hl]

lemma processRow_noFac (homes : List Individual) (st : ActState) (row : Record) :
    (processRow homes st row).noFacilitators
      = st.noFacilitators ++ (if isRecognized row && facBlank row then [row] else []) := by
  simp only [processRow, isRecognized, facBlank]
  split
  · next htype => simp [htype]
  · next t htype =>
    split
    · next hb => simp [htype, hb]
    · next hb =>
      split <;> split <;> simp [htype, hb]

lemma processRow_notFound (homes : List Individual) (st : ActState) (row : Record) :
    (processRow homes st row).facilitatorNotFound
      = st.facilitatorNotFound
        ++ (if isRecognized row && !facBlank row && !anyFacMatch homes row
            then [row] else []) := by
  simp only [processRow, isRecognized, facBlank, anyFacMatch]
  split
  · next htype => simp [htype]
  · next t htype =>
    split
    · next hb => simp [htype, hb]
    · next hb =>
      split
      · split
        · next hs =>
          rw [facStep_snd] at hs
          simp only [Bool.false_or] at hs
          simp [htype, hb, hs]
        · next hs =>
          rw [facStep_snd] at hs
          simp only [Bool.false_or] at hs
          have hs2 : (splitSemi (getField row FACILITATORS_KEYS)).any
              (fun n => (jsLookup (homeLookup homes) (normalizeName n)).isSome) = false := by
            cases hval : (splitSemi (getField row FACILITATORS_KEYS)).any
                (fun n => (jsLookup (homeLookup homes) (normalizeName n)).isSome)
            · rfl
            · exact absurd hval hs
          simp [htype, hb, hs2]
      · split
        · next hs =>
          rw [facStep_snd] at hs
          simp only [Bool.false_or] at hs
          simp [htype, hb, hs]
        · next hs =>
          rw [facStep_snd] at hs
          simp only [Bool.false_or] at hs
          have hs2 : (splitSemi (getField row FACILITATORS_KEYS)).any
              (fun n => (jsLookup (homeLookup homes) (normalizeName n)).isSome) = false := by
            cases hval : (splitSemi (getField row FACILITATORS_KEYS)).any
                (fun n => (jsLookup (homeLookup homes) (normalizeName n)).isSome)
            · rfl
            · exact absurd hval hs
          simp [htype, hb, hs2]

lemma activityState_noFac (homes : List Individual) (rows : List Record) :
    (activityState homes rows).noFacilitators
      = rows.filter (fun r => isRecognized r && facBlank r) := by
  unfold activityState
  suffices h : ∀ (rs : List Record) (st : ActState),
      (rs.foldl (processRow homes) st).noFacilitators
        = st.noFacilitators ++ rs.filter (fun r => isRecognized r && facBlank r) by
    rw [h rows _]
    rfl
  intro rs
  induction rs with
  | nil => intro st; simp
  | cons r rest ih =>
    intro st
    rw [List.foldl_cons, ih, processRow_noFac, List.filter_cons]
    by_cases hc : isRecognized r && facBlank r
    · simp [hc]
    · simp [hc]

lemma activityState_notFound (homes : List Individual) (rows : List Record) :
    (activityState homes rows).facilitatorNotFound
      = rows.filter (fun r => isRecognized r && !facBlank r && !anyFacMatch homes r) := by
  unfold activityState
  suffices h : ∀ (rs : List Record) (st : ActState),
      (rs.foldl (processRow homes) st).facilitatorNotFound
        = st.facilitatorNotFound
          ++ rs.filter (fun r => isRecognized r && !facBlank r && !anyFacMatch homes r) by
    rw [h rows _]
    rfl
  intro rs
  induction rs with
  | nil => intro st; simp
  | cons r rest ih =>
    intro st
    rw [List.foldl_cons, ih, processRow_notFound, List.filter_cons]
    by_cases hc : isRecognized r && !facBlank r && !anyFacMatch homes r
    · simp [hc]
    · simp [hc]

/-- A blank facilitators field can never produce a name match: all its
pieces normalize to the empty string, which is never a lookup key. -/
lemma facBlank_no_match (homes : List Individual) (row : Record)
    (h : facBlank row = true) : anyFacMatch homes row = false := by
  unfold anyFacMatch
  rw [List.any_eq_false]
  intro n hn
  have hblank : trimS (getField row FACILITATORS_KEYS) = "" := by
    simpa [facBlank] using h
  rw [splitSemi_blank_normalizes_empty _ hblank n hn, homeLookup_empty_key]
  simp

/-- The update the row loop performs on `facilitatorActivities` alone:
the other state components never feed back into it. -/
def faStepRow (homes : List Individual) (fa : List (String × List Assignment))
    (row : Record) : List (String × List Assignment) :=
  match ACTIVITY_TYPE_MAP (toLowerS (trimS (getField row ACTIVITY_TYPE_KEYS))) with
  | none => fa
  | some activityType =>
    if trimS (getField row FACILITATORS_KEYS) == "" then fa
    else ((splitSemi (getField row FACILITATORS_KEYS)).foldl
      (facStep homes activityType (getField row ACTIVITY_TYPE_KEYS)
        (getField row ACTIVITY_NAME_KEYS) (getField row FACILITATORS_KEYS))
      (fa, false)).1

lemma processRow_fa_eq (homes : List Individual) (st : ActState) (row : Record) :
    (processRow homes st row).facilitatorActivities
      = faStepRow homes st.facilitatorActivities row := by
  simp only [processRow, faStepRow]
  split
  · rfl
  · split
    · rfl
    · split <;> split <;> rfl

lemma activityState_fa_foldl (homes : List Individual) (rows : List Record) :
    ∀ st : ActState,
    (rows.foldl (processRow homes) st).facilitatorActivities
      = rows.foldl (faStepRow homes) st.facilitatorActivities := by
  induction rows with
  | nil => intro st; rfl
  | cons r rest ih =>
    intro st
    rw [List.foldl_cons, List.foldl_cons, ih, processRow_fa_eq]

/-- A row with a blank facilitators field leaves `facilitatorActivities`
untouched: the loop classifies it and returns before the name scan. -/
lemma faStepRow_blank (homes : List Individual)
    (fa : List (String × List Assignment)) (row : Record)
    (hb : facBlank row = true) : faStepRow homes fa row = fa := by
  unfold faStepRow
  cases ACTIVITY_TYPE_MAP (toLowerS (trimS (getField row ACTIVITY_TYPE_KEYS))) with
  | none => rfl
  | some activityType =>
    dsimp only
    rw [if_pos (by simpa [facBlank] using hb)]

/-- Markers are a function of `facilitatorActivities` only, so a
blank-facilitators row inserted anywhere in the input changes no marker. -/
lemma activityMarkers_blank_row_erased (homes : List Individual)
    (rows1 rows2 : List Record) (row : Record) (hb : facBlank row = true) :
    activityMarkers homes (rows1 ++ row :: rows2)
      = activityMarkers homes (rows1 ++ rows2) := by
  unfold activityMarkers activityState
  rw [activityState_fa_foldl, activityState_fa_foldl,
    List.foldl_append, List.foldl_append, List.foldl_cons,
    faStepRow_blank homes _ row hb]

/-- C5: for rows with a recognized activity type, the no-facilitators list
collects exactly the rows with a blank facilitators field, the
facilitator-not-found list collects exactly the non-blank rows none of
whose names resolve, a blank-facilitators row yields zero markers (on its
own it generates none, and inserted among other rows it adds none), and a
row with at least one resolved name lands in neither list. -/
theorem c5_row_classification :
    (∀ (homes : List Individual) (rows : List Record),
      noFacilitatorsOut homes rows
        = rows.filter (fun r => isRecognized r && facBlank r))
    ∧ (∀ (homes : List Individual) (rows : List Record),
      facilitatorNotFoundOut homes rows
        = rows.filter (fun r => isRecognized r && !facBlank r && !anyFacMatch homes r))
    ∧ (∀ (homes : List Individual) (row : Record), facBlank row = true →
        activityMarkers homes [row] = [])
    ∧ (∀ (homes : List Individual) (rows1 rows2 : List Record) (row : Record),
        facBlank row = true →
        activityMarkers homes (rows1 ++ row :: rows2)
          = activityMarkers homes (rows1 ++ rows2))
    ∧ (∀ (homes : List Individual) (rows : List Record) (r : Record),
        r ∈ rows → isRecognized r = true → anyFacMatch homes r = true →
        r ∉ noFacilitatorsOut homes rows ∧ r ∉ facilitatorNotFoundOut homes rows) := by
  refine ⟨fun homes rows => activityState_noFac homes rows,
    fun homes rows => activityState_notFound homes rows,
    fun homes row hb => activityMarkers_blank_row_erased homes [] [] row hb,
    fun homes rows1 rows2 row hb =>
      activityMarkers_blank_row_erased homes rows1 rows2 row hb, ?_⟩
  intro homes rows r hr hrec hmatch
  constructor
  · rw [noFacilitatorsOut, activityState_noFac]
    intro hmem
    have hp := List.of_mem_filter hmem
    simp only [Bool.and_eq_true] at hp
    have hb : facBlank r = true := hp.2
    rw [facBlank_no_match homes r hb] at hmatch
    exact absurd hmatch (by simp)
  · rw [facilitatorNotFoundOut, activityState_notFound]
    intro hmem
    have hp := List.of_mem_filter hmem
    simp only [Bool.and_eq_true] at hp
    have hnm := hp.2
    rw [hmatch] at hnm
    exact absurd hnm (by simp)

/-- Witness data shared by the activity-processing claims: two resolved
individuals and three activity rows. -/
def wJaneC : Individual := ⟨[("Neighborhood", "Downtown")], 0, 0, "1 Main St", "Jane", "Doe"⟩
def wJohnC : Individual := ⟨[("Neighborhood", "Uptown")], 5, 6, "2 Oak St", "John", "Smith"⟩
def wHomesAct : List Individual := [wJaneC, wJohnC]
def wActRow : Record :=
  [("Type", "Study Circle"), ("Name", "Circle A"), ("Facilitators", "Jane Doe; John Smith")]
def wActRow1 : Record :=
  [("Type", "Study Circle"), ("Name", "Circle B"), ("Facilitators", "Jane Doe")]
def wBlankFacRow : Record :=
  [("Type", "Devotional"), ("Name", "Dev 1"), ("Facilitators", "  ")]

/-- Witness for C5: the blank-facilitators row is classified, and a row
with a resolved facilitator lands in neither classification list. -/
theorem c5_witness :
    noFacilitatorsOut wHomesAct [wBlankFacRow, wActRow1]
      = [wBlankFacRow, wActRow1].filter (fun r => isRecognized r && facBlank r)
    ∧ activityMarkers wHomesAct [wBlankFacRow] = []
    ∧ activityMarkers wHomesAct [wBlankFacRow, wActRow1]
      = activityMarkers wHomesAct [wActRow1]
    ∧ wActRow1 ∉ noFacilitatorsOut wHomesAct [wBlankFacRow, wActRow1]
    ∧ wActRow1 ∉ facilitatorNotFoundOut wHomesAct [wBlankFacRow, wActRow1] := by
  have h3 := c5_row_classification.2.2.2.2 wHomesAct [wBlankFacRow, wActRow1] wActRow1
    (by decide) (by decide) (by decide)
  exact ⟨c5_row_classification.1 wHomesAct [wBlankFacRow, wActRow1],
    c5_row_classification.2.2.1 wHomesAct wBlankFacRow (by decide),
    c5_row_classification.2.2.2.1 wHomesAct [] [wActRow1] wBlankFacRow (by decide),
    h3.1, h3.2⟩

/-! Marker ring layout (claim C4). -/

lemma mem_enum_of_lt {α : Type} (l : List α) (i : Nat) (hi : i < l.length) :
    (i, l.get ⟨i, hi⟩) ∈ l.enum := by
  rw [List.mem_enum_iff_getElem?]
  simp [List.getElem?_eq_getElem hi]

/-- C4: assignment `i` of `N` is placed at
`(lat + sin(2πi/N)·R, lng + cos(2πi/N)·R)`; the offsets all lie at squared
radius `R²`; consecutive offsets are related by a rotation through angle
`2π/N`, so the ring is equally spaced; and a single assignment (`N = 1`)
sits at angle 0, offset from — not exactly at — the home point since
`R ≠ 0`. -/
theorem c4_marker_ring_layout :
    (∀ (homes : List Individual) (rows : List Record) (nm : String)
        (acts : List Assignment) (base : Individual) (i : Nat),
      (nm, acts) ∈ (activityState homes rows).facilitatorActivities →
      jsLookup (homeLookup homes) nm = some base →
      ∀ hi : i < acts.length,
      ∃ m ∈ activityMarkers homes rows,
        m.lat = base.lat
          + Real.sin (2 * Real.pi * i / acts.length) * ACTIVITY_MARKER_RADIUS_DEG
        ∧ m.lng = base.lng
          + Real.cos (2 * Real.pi * i / acts.length) * ACTIVITY_MARKER_RADIUS_DEG)
    ∧ (∀ i n : Nat, (markerOffset i n).1 ^ 2 + (markerOffset i n).2 ^ 2
        = ACTIVITY_MARKER_RADIUS_DEG ^ 2)
    ∧ (∀ n i : Nat, 0 < n →
        markerOffset (i + 1) n
          = ((markerOffset i n).1 * Real.cos (2 * Real.pi / n)
              + (markerOffset i n).2 * Real.sin (2 * Real.pi / n),
             (markerOffset i n).2 * Real.cos (2 * Real.pi / n)
              - (markerOffset i n).1 * Real.sin (2 * Real.pi / n)))
    ∧ markerOffset 0 1 = (0, ACTIVITY_MARKER_RADIUS_DEG)
    ∧ ACTIVITY_MARKER_RADIUS_DEG ≠ 0 := by
  refine ⟨?_, ?_, ?_, ?_, ?_⟩
  · intro homes rows nm acts base i hmem hbase hi
    refine ⟨mkMarker nm base acts.length i (acts.get ⟨i, hi⟩), ?_, rfl, rfl⟩
    rw [activityMarkers_eq_flatMap]
    apply List.mem_flatMap.2
    refine ⟨(nm, acts), hmem, ?_⟩
    rw [show ((nm, acts).1 : String) = nm from rfl, hbase]
    exact List.mem_map.2 ⟨(i, acts.get ⟨i, hi⟩), mem_enum_of_lt acts i hi, rfl⟩
  · intro i n
    unfold markerOffset
    have h := Real.sin_sq_add_cos_sq (2 * Real.pi * i / n)
    calc (Real.sin (2 * Real.pi * i / n) * ACTIVITY_MARKER_RADIUS_DEG) ^ 2
          + (Real.cos (2 * Real.pi * i / n) * ACTIVITY_MARKER_RADIUS_DEG) ^ 2
        = (Real.sin (2 * Real.pi * i / n) ^ 2 + Real.cos (2 * Real.pi * i / n) ^ 2)
            * ACTIVITY_MARKER_RADIUS_DEG ^ 2 := by ring
      _ = ACTIVITY_MARKER_RADIUS_DEG ^ 2 := by rw [h, one_mul]
  · intro n i hn
    have hne : (n : ℝ) ≠ 0 := Nat.cast_ne_zero.2 (Nat.pos_iff_ne_zero.1 hn)
    have hangle : 2 * Real.pi * (↑(i + 1) : ℝ) / n
        = 2 * Real.pi * i / n + 2 * Real.pi / n := by
      push_cast
      field_simp
      ring
    unfold markerOffset
    rw [hangle, Real.sin_add, Real.cos_add]
    simp only [Prod.mk.injEq]
    constructor <;> ring
  · have hangle : 2 * Real.pi * ((0 : Nat) : ℝ) / ((1 : Nat) : ℝ) = 0 := by
      push_cast
      ring
    unfold markerOffset
    rw [hangle, Real.sin_zero, Real.cos_zero]
    simp
  · unfold ACTIVITY_MARKER_RADIUS_DEG
    norm_num

/-- Witness for C4: consecutive offsets of a 4-ring are related by a
quarter-turn rotation, and a single-assignment facilitator's marker sits
exactly one radius east of the home point. -/
theorem c4_witness :
    markerOffset (0 + 1) 4
      = ((markerOffset 0 4).1 * Real.cos (2 * Real.pi / 4)
          + (markerOffset 0 4).2 * Real.sin (2 * Real.pi / 4),
         (markerOffset 0 4).2 * Real.cos (2 * Real.pi / 4)
          - (markerOffset 0 4).1 * Real.sin (2 * Real.pi / 4))
    ∧ ∃ m ∈ activityMarkers wHomesAct [wActRow1],
        m.lat = wJaneC.lat ∧ m.lng = wJaneC.lng + ACTIVITY_MARKER_RADIUS_DEG := by
  constructor
  · exact c4_marker_ring_layout.2.2.1 4 0 (by decide)
  · have h := c4_marker_ring_layout.1 wHomesAct [wActRow1] "jane doe"
      [⟨"SC", "Study Circle", "Jane Doe", "1 Main St", "Circle B", "Jane Doe"⟩]
      wJaneC 0 (by decide) rfl (by decide)
    obtain ⟨m, hm, hlat, hlng⟩ := h
    refine ⟨m, hm, ?_, ?_⟩
    · simpa using hlat
    · simpa using hlng

/-! Unique activity counting (claim C3). -/

/-- The unique-key set collected for an activity type. -/
def bucketOf (um : List (String × List String)) (t : String) : List String :=
  (jsLookup um t).getD []

lemma bucketOf_addToSet (um : List (String × List String)) (a : Assignment)
    (t : String) :
    bucketOf (addToSet um a) t
      = if t = a.activity
        then (if (bucketOf um a.activity).contains (mappedKey a)
              then bucketOf um a.activity
              else bucketOf um a.activity ++ [mappedKey a])
        else bucketOf um t := by
  unfold addToSet bucketOf
  cases hl : jsLookup um a.activity with
  | some s =>
    rw [jsLookup_jsInsert]
    by_cases ht : t = a.activity
    · rw [if_pos ht, if_pos ht]
      simp
    · rw [if_neg ht, if_neg ht]
  | none =>
    rw [jsLookup_or_append]
    by_cases ht : t = a.activity
    · subst ht
      rw [hl]
      simp [jsLookup_cons, jsLookup_nil]
    · rw [if_neg ht]
      have hne : ¬ a.activity = t := fun h => ht h.symm
      cases hu : jsLookup um t with
      | none => simp [jsLookup_cons, hne, jsLookup_nil]
      | some s2 => simp [jsLookup_cons, hne, jsLookup_nil]

lemma bucket_fold_addToSet :
    ∀ (acts : List Assignment) (um : List (String × List String)),
    (∀ t, (bucketOf um t).Nodup) →
    (∀ t, (bucketOf (acts.foldl addToSet um) t).Nodup)
    ∧ (∀ t k, k ∈ bucketOf (acts.foldl addToSet um) t
        ↔ k ∈ bucketOf um t ∨ ∃ a ∈ acts, a.activity = t ∧ mappedKey a = k) := by
  intro acts
  induction acts with
  | nil => intro um h; exact ⟨h, fun t k => by simp⟩
  | cons a as ih =>
    intro um h
    rw [List.foldl_cons]
    have hnodup : ∀ t, (bucketOf (addToSet um a) t).Nodup := by
      intro t
      rw [bucketOf_addToSet]
      by_cases ht : t = a.activity
      · rw [if_pos ht]
        by_cases hc : (bucketOf um a.activity).contains (mappedKey a)
        · rw [if_pos hc]
          exact h _
        · rw [if_neg hc]
          rw [List.nodup_append]
          refine ⟨h _, List.nodup_singleton _, ?_⟩
          intro x hx hx2
          rw [List.mem_singleton.1 hx2] at hx
          have hnc : mappedKey a ∉ bucketOf um a.activity := by simpa using hc
          exact hnc hx
      · rw [if_neg ht]
        exact h _
    rcases ih (addToSet um a) hnodup with ⟨g1, g2⟩
    refine ⟨g1, fun t k => (g2 t k).trans ?_⟩
    rw [bucketOf_addToSet]
    by_cases ht : t = a.activity
    · subst ht
      by_cases hc : (bucketOf um a.activity).contains (mappedKey a)
      · rw [if_pos rfl, if_pos hc]
        have hmem : mappedKey a ∈ bucketOf um a.activity := by simpa using hc
        constructor
        · rintro (hx | ⟨b, hb, hbt, hbk⟩)
          · exact Or.inl hx
          · exact Or.inr ⟨b, List.mem_cons_of_mem a hb, hbt, hbk⟩
        · rintro (hx | ⟨b, hb, hbt, hbk⟩)
          · exact Or.inl hx
          · rcases List.mem_cons.1 hb with he | he
            · left
              rw [← hbk, he]
              exact hbt ▸ hmem
            · exact Or.inr ⟨b, he, hbt, hbk⟩
      · rw [if_pos rfl, if_neg hc]
        constructor
        · rintro (hx | hx)
          · rcases List.mem_append.1 hx with h1 | h1
            · exact Or.inl h1
            · exact Or.inr ⟨a, List.mem_cons_self a as,
                rfl, (List.mem_singleton.1 h1).symm⟩
          · rcases hx with ⟨b, hb, hbt, hbk⟩
            exact Or.inr ⟨b, List.mem_cons_of_mem a hb, hbt, hbk⟩
        · rintro (hx | ⟨b, hb, hbt, hbk⟩)
          · exact Or.inl (List.mem_append_left _ hx)
          · rcases List.mem_cons.1 hb with he | he
            · left
              apply List.mem_append_right
              rw [List.mem_singleton, ← hbk, he]
            · exact Or.inr ⟨b, he, hbt, hbk⟩
    · rw [if_neg ht]
      constructor
      · rintro (hx | ⟨b, hb, hbt, hbk⟩)
        · exact Or.inl hx
        · exact Or.inr ⟨b, List.mem_cons_of_mem a hb, hbt, hbk⟩
      · rintro (hx | ⟨b, hb, hbt, hbk⟩)
        · exact Or.inl hx
        · rcases List.mem_cons.1 hb with he | he
          · exact absurd (he ▸ hbt : a.activity = t) (fun h2 => ht h2.symm)
          · exact Or.inr ⟨b, he, hbt, hbk⟩

lemma exists_mem_enum {α : Type} (l : List α) (a : α) (ha : a ∈ l) :
    ∃ i, (i, a) ∈ l.enum := by
  rcases List.mem_iff_get.1 ha with ⟨n, hget⟩
  exact ⟨n.1, hget ▸ mem_enum_of_lt l n.1 n.2⟩

/-- Invariant of the marker loop: the collected key sets are duplicate
free, and a key is collected for a type exactly when some already
generated marker of that type carries it. -/
def umMarkersInv (ms : List ActivityMarker) (um : List (String × List String)) : Prop :=
  (∀ t, (bucketOf um t).Nodup)
  ∧ ∀ t k, k ∈ bucketOf um t ↔ ∃ m ∈ ms, m.activity = t ∧ markerKey m = k

lemma markerStep_preserves_inv (homes : List Individual)
    (acc : List ActivityMarker × List (String × List String))
    (entry : String × List Assignment) (h : umMarkersInv acc.1 acc.2) :
    umMarkersInv (markerStep homes acc entry).1 (markerStep homes acc entry).2 := by
  simp only [markerStep]
  cases hl : jsLookup (homeLookup homes) entry.1 with
  | none => exact h
  | some base =>
    rcases bucket_fold_addToSet entry.2 acc.2 h.1 with ⟨g1, g2⟩
    refine ⟨g1, fun t k => (g2 t k).trans ?_⟩
    rw [h.2 t k]
    constructor
    · rintro (⟨m, hm, hp⟩ | ⟨a, ha, hat, hak⟩)
      · exact ⟨m, List.mem_append_left _ hm, hp⟩
      · obtain ⟨i, hi⟩ := exists_mem_enum entry.2 a ha
        refine ⟨mkMarker entry.1 base entry.2.length i a,
          List.mem_append_right _ (List.mem_map.2 ⟨(i, a), hi, rfl⟩), hat, hak⟩
    · rintro ⟨m, hm, hmt, hmk⟩
      rcases List.mem_append.1 hm with h1 | h1
      · exact Or.inl ⟨m, h1, hmt, hmk⟩
      · rcases List.mem_map.1 h1 with ⟨p, hpmem, he⟩
        refine Or.inr ⟨p.2, List.snd_mem_of_mem_enum hpmem, ?_, ?_⟩
        · rw [← he] at hmt
          exact hmt
        · rw [← he] at hmk
          exact hmk

lemma markerPass_inv (homes : List Individual) :
    ∀ (fa : List (String × List Assignment))
      (acc : List ActivityMarker × List (String × List String)),
    umMarkersInv acc.1 acc.2 →
    umMarkersInv (fa.foldl (markerStep homes) acc).1
      (fa.foldl (markerStep homes) acc).2 := by
  intro fa
  induction fa with
  | nil => intro acc h; exact h
  | cons e es ih =>
    intro acc h
    rw [List.foldl_cons]
    exact ih _ (markerStep_preserves_inv homes acc e h)

/-- The published per-type count is the size of the collected key set. -/
lemma activityTypeCounts_eq_bucket (homes : List Individual) (rows : List Record)
    (t : String) :
    activityTypeCounts homes rows t
      = (bucketOf
          (markerPass homes (activityState homes rows).facilitatorActivities).2
          t).length := by
  unfold activityTypeCounts bucketOf
  cases jsLookup (markerPass homes (activityState homes rows).facilitatorActivities).2 t
    with
  | none => rfl
  | some s => rfl

/-- The count of an activity type equals the number of distinct
`(name, type, facilitators)` keys among the generated markers of that
type: an activity is counted only if it produced at least one marker, with
uniqueness keyed by the triple. -/
lemma activityTypeCounts_eq_dedup (homes : List Individual) (rows : List Record)
    (t : String) :
    activityTypeCounts homes rows t
      = (((activityMarkers homes rows).filter
            (fun m => m.activity == t)).map markerKey).dedup.length := by
  have hbase : umMarkersInv ([] : List ActivityMarker) [] :=
    ⟨fun t => by simp [bucketOf, jsLookup_nil], fun t k => by simp [bucketOf, jsLookup_nil]⟩
  have hinv : umMarkersInv
      (markerPass homes (activityState homes rows).facilitatorActivities).1
      (markerPass homes (activityState homes rows).facilitatorActivities).2 :=
    markerPass_inv homes (activityState homes rows).facilitatorActivities
      ([], []) hbase
  rw [activityTypeCounts_eq_bucket]
  have hmem : ∀ k, k ∈ bucketOf
      (markerPass homes (activityState homes rows).facilitatorActivities).2 t
      ↔ k ∈ (((activityMarkers homes rows).filter
            (fun m => m.activity == t)).map markerKey).dedup := by
    intro k
    rw [List.mem_dedup, List.mem_map]
    rw [hinv.2 t k]
    constructor
    · rintro ⟨m, hm, hmt, hmk⟩
      exact ⟨m, List.mem_filter.2 ⟨hm, by simp [hmt]⟩, hmk⟩
    · rintro ⟨m, hm, hmk⟩
      have h2 := List.mem_filter.1 hm
      exact ⟨m, h2.1, by simpa using h2.2, hmk⟩
  have hperm := (List.perm_ext_iff_of_nodup (hinv.1 t) (List.nodup_dedup _)).2 hmem
  exact hperm.length_eq

/-- C3: in general, the published count of an activity type is the number
of distinct `(activityName, activityType, facilitatorsRaw)` keys among the
generated markers of that type (so an activity is counted only if it
produced at least one marker); and a single activity row naming two
facilitators, both of whom resolve, contributes exactly 2 markers and
exactly 1 to its type's unique count. -/
theorem c3_two_facilitators_two_markers_one_count :
    (∀ (homes : List Individual) (rows : List Record) (t : String),
      activityTypeCounts homes rows t
        = (((activityMarkers homes rows).filter
              (fun m => m.activity == t)).map markerKey).dedup.length)
    ∧ (∀ (homes : List Individual) (row : Record) (t n1 n2 : String)
        (h1 h2 : Individual),
        ACTIVITY_TYPE_MAP (toLowerS (trimS (getField row ACTIVITY_TYPE_KEYS))) = some t →
        (trimS (getField row FACILITATORS_KEYS) == "") = false →
        splitSemi (getField row FACILITATORS_KEYS) = [n1, n2] →
        jsLookup (homeLookup homes) (normalizeName n1) = some h1 →
        jsLookup (homeLookup homes) (normalizeName n2) = some h2 →
        (activityMarkers homes [row]).length = 2
        ∧ activityTypeCounts homes [row] t = 1) := by
  refine ⟨fun homes rows t => activityTypeCounts_eq_dedup homes rows t, ?_⟩
  intro homes row t n1 n2 h1 h2 htype hblank hsplit hl1 hl2
  have hfa : (activityState homes [row]).facilitatorActivities
      = addAssignment (addAssignment [] (normalizeName n1)
          ⟨t, getField row ACTIVITY_TYPE_KEYS, trimS n1, h1.address,
           getField row ACTIVITY_NAME_KEYS, getField row FACILITATORS_KEYS⟩)
          (normalizeName n2)
          ⟨t, getField row ACTIVITY_TYPE_KEYS, trimS n2, h2.address,
           getField row ACTIVITY_NAME_KEYS, getField row FACILITATORS_KEYS⟩ := by
    simp only [activityState, List.foldl_cons, List.foldl_nil, processRow,
      htype, hblank, Bool.false_eq_true, if_false, hsplit, facStep, hl1, hl2]
    simp
  have ha1 : addAssignment [] (normalizeName n1)
      ⟨t, getField row ACTIVITY_TYPE_KEYS, trimS n1, h1.address,
       getField row ACTIVITY_NAME_KEYS, getField row FACILITATORS_KEYS⟩
      = [(normalizeName n1,
          [⟨t, getField row ACTIVITY_TYPE_KEYS, trimS n1, h1.address,
            getField row ACTIVITY_NAME_KEYS, getField row FACILITATORS_KEYS⟩])] := rfl
  by_cases heq : normalizeName n2 = normalizeName n1
  · have ha2 : addAssignment [(normalizeName n1,
        [⟨t, getField row ACTIVITY_TYPE_KEYS, trimS n1, h1.address,
          getField row ACTIVITY_NAME_KEYS, getField row FACILITATORS_KEYS⟩])]
        (normalizeName n2)
        ⟨t, getField row ACTIVITY_TYPE_KEYS, trimS n2, h2.address,
         getField row ACTIVITY_NAME_KEYS, getField row FACILITATORS_KEYS⟩
        = [(normalizeName n2,
            [⟨t, getField row ACTIVITY_TYPE_KEYS, trimS n1, h1.address,
              getField row ACTIVITY_NAME_KEYS, getField row FACILITATORS_KEYS⟩,
             ⟨t, getField row ACTIVITY_TYPE_KEYS, trimS n2, h2.address,
              getField row ACTIVITY_NAME_KEYS, getField row FACILITATORS_KEYS⟩])] := by
      unfold addAssignment
      simp [jsLookup_cons, heq, jsInsert]
    constructor
    · unfold activityMarkers markerPass
      rw [hfa, ha1, ha2]
      simp only [List.foldl_cons, List.foldl_nil, markerStep, heq, hl1]
      simp [List.enum_cons]
    · unfold activityTypeCounts markerPass
      rw [hfa, ha1, ha2]
      simp only [List.foldl_cons, List.foldl_nil, markerStep, heq, hl1]
      simp [addToSet, mappedKey, jsLookup_cons, jsLookup_nil, jsInsert]
  · have ha2 : addAssignment [(normalizeName n1,
        [⟨t, getField row ACTIVITY_TYPE_KEYS, trimS n1, h1.address,
          getField row ACTIVITY_NAME_KEYS, getField row FACILITATORS_KEYS⟩])]
        (normalizeName n2)
        ⟨t, getField row ACTIVITY_TYPE_KEYS, trimS n2, h2.address,
         getField row ACTIVITY_NAME_KEYS, getField row FACILITATORS_KEYS⟩
        = [(normalizeName n1,
            [⟨t, getField row ACTIVITY_TYPE_KEYS, trimS n1, h1.address,
              getField row ACTIVITY_NAME_KEYS, getField row FACILITATORS_KEYS⟩]),
           (normalizeName n2,
            [⟨t, getField row ACTIVITY_TYPE_KEYS, trimS n2, h2.address,
              getField row ACTIVITY_NAME_KEYS, getField row FACILITATORS_KEYS⟩])] := by
      unfold addAssignment
      have hne : ¬ normalizeName n1 = normalizeName n2 := fun h => heq h.symm
      simp [jsLookup_cons, hne, jsLookup_nil]
    constructor
    · unfold activityMarkers markerPass
      rw [hfa, ha1, ha2]
      simp only [List.foldl_cons, List.foldl_nil, markerStep, hl1, hl2]
      simp [List.enum_cons]
    · unfold activityTypeCounts markerPass
      rw [hfa, ha1, ha2]
      simp only [List.foldl_cons, List.foldl_nil, markerStep, hl1, hl2]
      simp [addToSet, mappedKey, jsLookup_cons, jsLookup_nil, jsInsert]

/-- Witness for C3: the row naming `Jane Doe; John Smith` (both resolved)
yields 2 markers and a unique `SC` count of 1. -/
theorem c3_witness :
    (activityMarkers wHomesAct [wActRow]).length = 2
    ∧ activityTypeCounts wHomesAct [wActRow] "SC" = 1 :=
  c3_two_facilitators_two_markers_one_count.2 wHomesAct wActRow "SC"
    "Jane Doe" " John Smith" wJaneC wJohnC
    (by decide) (by decide) (by decide) rfl rfl

/-- Witness for C8: a row with a blank neighborhood forces `"Other"`, and
the aggregate for the witness data ends with it. -/
theorem c8_witness :
    "Other" ∈ allNeighborhoodsRaw
      [⟨[("Neighborhood", "Zeta")], 0, 0, "", "", ""⟩,
       ⟨[("Neighborhood", "")], 0, 0, "", "", ""⟩]
    ∧ (uniqueNeighborhoods
      [⟨[("Neighborhood", "Zeta")], 0, 0, "", "", ""⟩,
       ⟨[("Neighborhood", "")], 0, 0, "", "", ""⟩]).getLast? = some "Other" := by
  have h1 : "Other" ∈ allNeighborhoodsRaw
      [⟨[("Neighborhood", "Zeta")], 0, 0, "", "", ""⟩,
       ⟨[("Neighborhood", "")], 0, 0, "", "", ""⟩] :=
    c8_neighborhood_aggregation.2.1
      [⟨[("Neighborhood", "Zeta")], 0, 0, "", "", ""⟩,
       ⟨[("Neighborhood", "")], 0, 0, "", "", ""⟩]
      ⟨[("Neighborhood", "")], 0, 0, "", "", ""⟩
      (List.mem_cons_of_mem _ (List.mem_cons_self _ _)) (by decide)
  exact ⟨h1, c8_neighborhood_aggregation.2.2.1 _ h1⟩

end ActivityMapper
